import Mathlib

/-!
Shallow embedding of the StreamKit persistence core and publisher engine.

Sources embedded here:
- `streamkit/database/core/keys.py` : the key interner (`__get`, `get_level`,
  `get_topic`, `get_host`, `get_subscriber` with their `functools.lru_cache`).
- `streamkit/database/message.py` : the in-memory `Message` value object
  (`Message.__init__`, `Message.to_record`), `publish` and `fetch`.
- `streamkit/database/access.py` : `latest` and `update` on the access table.
- `streamkit/publisher.py` : `Publisher.write` and the `QueueThread.run`
  worker loop.

Python values flowing through message dictionaries are modelled by `Val`
(`None`, strings, ints, datetimes).  Machine state owned by the database is a
`DB` record: the four `(id, name)` tables, the message table, the access
table, an autoincrement counter, and a `failCommit` flag modelling a backend
whose commits are rejected (a driver-level failure).  Fallible operations
return `Except DBErr`.
-/

/-- Dynamic values carried by Python dictionaries and object fields:
`None`, strings, integers, and timestamps (modelled as `Int`). -/
inductive Val where
  | vnone : Val
  | vstr (s : String) : Val
  | vint (n : Nat) : Val
  | vtime (t : Int) : Val
deriving DecidableEq, Repr

/-- Timestamp carried by a `Val`, defaulting to `0` for non-timestamps. -/
def Val.timeOf : Val → Int
  | .vtime t => t
  | _ => 0

/-- Row of one of the `(id, name)` tables (level, topic, host, subscriber),
from `streamkit/database/core/orm.py`.  The `name` column is declared
`nullable=False`, which the commit model below enforces. -/
structure NameRow where
  id : Nat
  name : Val
deriving DecidableEq, Repr

/-- One `(id, name)` table together with its autoincrement counter. -/
structure NameTable where
  rows : List NameRow
  nextId : Nat
deriving DecidableEq, Repr

/-- Row of the `message` table (`orm.Message`). -/
structure MessageRow where
  id : Nat
  time : Int
  topic_id : Nat
  level_id : Nat
  host_id : Nat
  text : Val
deriving DecidableEq, Repr

/-- Row of the `access` table (`orm.Access`), composite primary key
`(subscriber_id, topic_id)`. -/
structure AccessRow where
  subscriber_id : Nat
  topic_id : Nat
  time : Int
deriving DecidableEq, Repr

/-- Errors surfaced by database operations.  `storage` models a driver-level
rejected commit, `integrity` a NOT NULL violation, `unique` a UNIQUE
violation from a concurrent insert, `multiple` the `MultipleResultsFound`
raised by `Query.one`. -/
inductive DBErr where
  | storage : DBErr
  | integrity : DBErr
  | unique : DBErr
  | multiple : DBErr
deriving DecidableEq, Repr

/-- The whole database: four interned name tables, the message and access
tables, the message id sequence, and the backend health flag. -/
structure DB where
  levels : NameTable
  topics : NameTable
  hosts : NameTable
  subscribers : NameTable
  messages : List MessageRow
  access : List AccessRow
  nextMessageId : Nat
  failCommit : Bool
deriving DecidableEq, Repr

/-- Fresh empty table; SQL sequences start at 1. -/
def emptyTable : NameTable := ⟨[], 1⟩

/-- Fresh empty database with a healthy backend. -/
def emptyDB : DB := ⟨emptyTable, emptyTable, emptyTable, emptyTable, [], [], 1, false⟩

/-- Session commit: rejected iff the backend is failing. -/
def commit (db : DB) : Except DBErr DB :=
  if db.failCommit then .error .storage else .ok db

/-- Lookup by unique name, `session.query(table).filter_by(name=name).one()`
restricted to the zero-or-one case the unique constraint guarantees. -/
def tableFindName (t : NameTable) (v : Val) : Option NameRow :=
  t.rows.find? (fun r => decide (r.name = v))

/-- Lookup by primary key: how a relationship such as `message.topic`
resolves `topic_id` to a row. -/
def tableFindId (t : NameTable) (i : Nat) : Option NameRow :=
  t.rows.find? (fun r => decide (r.id = i))

/-- Name carried by the row a foreign key points at (`msg.topic.name`),
`Val.vnone` when dangling. -/
def resolveName (t : NameTable) (i : Nat) : Val :=
  match tableFindId t i with
  | some r => r.name
  | none => .vnone

/-- Embedding of `keys.__get`, split over the two database states it can
see: the lookup runs against `lookupT` while the insert commits against
`commitT`, which a concurrent writer may have extended in between.  The
serial call has `lookupT = commitT` (see `tableGet`).  On the create path
the commit can fail as a driver error (`failCommit`), a NOT NULL violation
(interning `None`), or a UNIQUE violation (the name appeared concurrently);
none of these is caught by `__get`. -/
def tableGetRaced (fc : Bool) (lookupT commitT : NameTable) (v : Val) :
    Except DBErr (NameRow × NameTable) :=
  match tableFindName lookupT v with
  | some r => .ok (r, commitT)
  | none =>
    if fc then .error .storage
    else if v = .vnone then .error .integrity
    else if (tableFindName commitT v).isSome then .error .unique
    else .ok (⟨commitT.nextId, v⟩, ⟨commitT.rows ++ [⟨commitT.nextId, v⟩], commitT.nextId + 1⟩)

/-- `keys.__get` in the absence of concurrent writers. -/
def tableGet (fc : Bool) (t : NameTable) (v : Val) : Except DBErr (NameRow × NameTable) :=
  tableGetRaced fc t t v

/-- Intern a topic name into the database (`get_topic` without its cache;
the cached layer is modelled separately by `get_level` below). -/
def internTopic (db : DB) (v : Val) : Except DBErr (NameRow × DB) :=
  match tableGet db.failCommit db.topics v with
  | .error e => .error e
  | .ok (r, t) => .ok (r, { db with topics := t })

/-- Intern a level name into the database. -/
def internLevel (db : DB) (v : Val) : Except DBErr (NameRow × DB) :=
  match tableGet db.failCommit db.levels v with
  | .error e => .error e
  | .ok (r, t) => .ok (r, { db with levels := t })

/-- Intern a host name into the database. -/
def internHost (db : DB) (v : Val) : Except DBErr (NameRow × DB) :=
  match tableGet db.failCommit db.hosts v with
  | .error e => .error e
  | .ok (r, t) => .ok (r, { db with hosts := t })

/-- Intern a subscriber name into the database. -/
def internSubscriber (db : DB) (v : Val) : Except DBErr (NameRow × DB) :=
  match tableGet db.failCommit db.subscribers v with
  | .error e => .error e
  | .ok (r, t) => .ok (r, { db with subscribers := t })

/-- Validation errors raised by `Message.__init__` as `AttributeError`:
`required f` is the KeyError path ("Message.'f' is required."), `unexpected
f` the leftover-field path ("Message.f"). -/
inductive MsgErr where
  | required (f : String) : MsgErr
  | unexpected (f : String) : MsgErr
deriving DecidableEq, Repr

/-- Python `dict.pop(k)`: the value at `k` and the dictionary without it,
or `none` (KeyError) when the key is absent. -/
def dictPop (k : String) : List (String × Val) → Option (Val × List (String × Val))
  | [] => none
  | (k', v) :: rest =>
    if k' = k then some (v, rest)
    else match dictPop k rest with
      | none => none
      | some (w, rest') => some (w, (k', v) :: rest')

/-- Python `dict.pop(k, d)`: like `dictPop` but returning the default `d`
when the key is absent. -/
def dictPopD (k : String) (d : Val) (fs : List (String × Val)) : Val × List (String × Val) :=
  match dictPop k fs with
  | none => (d, fs)
  | some (v, rest) => (v, rest)

/-- In-memory message value object (`message.Message`).  Every field holds a
dynamic value, as in the source where each defaults to `None`. -/
structure Message where
  id : Val
  time : Val
  topic : Val
  level : Val
  host : Val
  text : Val
deriving DecidableEq, Repr

/-- Embedding of `Message.__init__`.  `now` stands for `datetime.utcnow()`
at the call and `hostname` for the module-level `HOST` captured at process
start.  Fields are popped in source order (id, time, topic, level, host,
text); a missing required key raises the KeyError-derived `AttributeError`,
and afterwards any leftover field raises `AttributeError` naming it. -/
def Message.init (now : Int) (hostname : String) (fields : List (String × Val)) :
    Except MsgErr Message :=
  let p1 := dictPopD "id" .vnone fields
  let p2 := dictPopD "time" (.vtime now) p1.2
  match dictPop "topic" p2.2 with
  | none => .error (.required "topic")
  | some (topicv, fs3) =>
    match dictPop "level" fs3 with
    | none => .error (.required "level")
    | some (levelv, fs4) =>
      let p5 := dictPopD "host" (.vstr hostname) fs4
      match dictPop "text" p5.2 with
      | none => .error (.required "text")
      | some (textv, fs6) =>
        match fs6 with
        | [] => .ok ⟨p1.1, p2.1, topicv, levelv, p5.1, textv⟩
        | (k, _) :: _ => .error (.unexpected k)

/-- Message row before the autoincrement id is assigned at flush time. -/
structure MessageDraft where
  id : Val
  time : Int
  topic_id : Nat
  level_id : Nat
  host_id : Nat
  text : Val
deriving DecidableEq, Repr

/-- Embedding of `Message.to_record`: intern topic, level and host (in the
source's keyword evaluation order) and build the ORM row. -/
def Message.to_record (m : Message) (db : DB) : Except DBErr (MessageDraft × DB) := do
  let (topicRow, db1) ← internTopic db m.topic
  let (levelRow, db2) ← internLevel db1 m.level
  let (hostRow, db3) ← internHost db2 m.host
  .ok (⟨m.id, m.time.timeOf, topicRow.id, levelRow.id, hostRow.id, m.text⟩, db3)

/-- The list comprehension `[msg.to_record() for msg in messages]`, threading
the session state left to right. -/
def toRecords : List Message → DB → Except DBErr (List MessageDraft × DB)
  | [], db => .ok ([], db)
  | m :: ms, db => do
    let (d, db1) ← m.to_record db
    let (ds, db2) ← toRecords ms db1
    .ok (d :: ds, db2)

/-- Autoincrement id assignment at flush: drafts with an explicit integer id
keep it, the rest take consecutive values of the sequence. -/
def assignIds (next : Nat) : List MessageDraft → List MessageRow × Nat
  | [] => ([], next)
  | d :: ds =>
    match d.id with
    | .vint i =>
      let (rs, n) := assignIds next ds
      (⟨i, d.time, d.topic_id, d.level_id, d.host_id, d.text⟩ :: rs, n)
    | _ =>
      let (rs, n) := assignIds (next + 1) ds
      (⟨next, d.time, d.topic_id, d.level_id, d.host_id, d.text⟩ :: rs, n)

/-- Embedding of `message.publish`: convert every message to a record,
add all rows to the session, and commit once. -/
def publish (msgs : List Message) (db : DB) : Except DBErr DB := do
  let (drafts, db1) ← toRecords msgs db
  let (rows, n) := assignIds db1.nextMessageId drafts
  commit { db1 with messages := db1.messages ++ rows, nextMessageId := n }

/-- Comparison used by `order_by(Message.time)`. -/
def msgTimeLe (a b : MessageRow) : Prop := a.time ≤ b.time

instance : DecidableRel msgTimeLe := fun a b => inferInstanceAs (Decidable (a.time ≤ b.time))

instance : IsTotal MessageRow msgTimeLe := ⟨fun a b => Int.le_total a.time b.time⟩

instance : IsTrans MessageRow msgTimeLe := ⟨fun _ _ _ h h' => le_trans h h'⟩

/-- Embedding of `message.fetch`: intern the topic, filter rows strictly
after `after` on that topic, order by time (a stable sort models the SQL
`ORDER BY` with implementation-defined tie order), truncate to `lim`, and
eagerly resolve the three joined names into value objects. -/
def fetch (topic : String) (after : Int) (lim : Nat) (db : DB) :
    Except DBErr (List Message × DB) := do
  let (topicRow, db1) ← internTopic db (.vstr topic)
  let rows := ((db1.messages.filter
      (fun m => decide (after < m.time) && decide (m.topic_id = topicRow.id))).insertionSort
      msgTimeLe).take lim
  .ok (rows.map (fun r =>
    ⟨.vint r.id, .vtime r.time, resolveName db1.topics r.topic_id,
      resolveName db1.levels r.level_id, resolveName db1.hosts r.host_id, r.text⟩), db1)

/-- Composite-key match used by the access queries
(`filter_by(subscriber_id=...).filter_by(topic_id=...)`). -/
def accessKey (sid tid : Nat) (a : AccessRow) : Bool :=
  decide (a.subscriber_id = sid) && decide (a.topic_id = tid)

/-- Embedding of `access.latest`: return the existing cursor row if one
matches; otherwise create one at the time of the first message on the topic
in time order (the earliest), or at the current time `now` when the topic
has no messages, commit, and return it.  More than one matching row is the
`MultipleResultsFound` error of `Query.one`. -/
def latest (s t : String) (now : Int) (db : DB) : Except DBErr (AccessRow × DB) := do
  let (sub, db1) ← internSubscriber db (.vstr s)
  let (top, db2) ← internTopic db1 (.vstr t)
  match db2.access.filter (accessKey sub.id top.id) with
  | [a] => .ok (a, db2)
  | [] =>
    let onTopic := db2.messages.filter (fun m => decide (m.topic_id = top.id))
    let tval : Int :=
      match (onTopic.insertionSort msgTimeLe).head? with
      | none => now
      | some m => m.time
    let a : AccessRow := ⟨sub.id, top.id, tval⟩
    let db3 ← commit { db2 with access := db2.access ++ [a] }
    .ok (a, db3)
  | _ => .error .multiple

/-- Embedding of `access.update`: set the matching cursor row's time to
`time` unconditionally, or insert the row when absent; commit. -/
def update (s t : String) (time : Int) (db : DB) : Except DBErr DB := do
  let (sub, db1) ← internSubscriber db (.vstr s)
  let (top, db2) ← internTopic db1 (.vstr t)
  match db2.access.filter (accessKey sub.id top.id) with
  | [_] =>
    let upd := fun (a : AccessRow) =>
      if accessKey sub.id top.id a then { a with time := time } else a
    commit { db2 with access := db2.access.map upd }
  | [] =>
    commit { db2 with access := db2.access ++ [⟨sub.id, top.id, time⟩] }
  | _ => .error .multiple

/-- Fold a sequence of `update` calls for one `(subscriber, topic)` pair. -/
def applyUpdates (s t : String) (ts : List Int) (db : DB) : Except DBErr DB :=
  ts.foldlM (fun d τ => update s t τ d) db

/-- Observation of the persisted cursor for `(s, t)`: resolve both names by
unique-name lookup, then read the matching access row's time. -/
def storedTime (s t : String) (db : DB) : Option Int :=
  match tableFindName db.subscribers (.vstr s), tableFindName db.topics (.vstr t) with
  | some sr, some tr => (db.access.find? (accessKey sr.id tr.id)).map (fun a => a.time)
  | _, _ => none

/-- Value placed in the message dictionary for topic or level by
`Publisher.write`: the per-call value when given, else the bound default,
else `None`. -/
def writeField (bound percall : Option String) : Val :=
  match percall with
  | some s => .vstr s
  | none =>
    match bound with
    | some s => .vstr s
    | none => .vnone

/-- Embedding of `Publisher.write`: the dictionary enqueued for the worker.
The keys `text`, `topic` and `level` are always present; `topic` and
`level` may carry `None` when neither a per-call nor a bound value exists.
Enqueueing itself is total (a bounded `Queue.put` blocks but never fails). -/
def Publisher.write (boundTopic boundLevel : Option String) (text : String)
    (level topic : Option String) : List (String × Val) :=
  [("text", .vstr text),
   ("topic", writeField boundTopic topic),
   ("level", writeField boundLevel level)]

/-- Exceptions escaping one cycle of the worker loop: a `Message.__init__`
validation error or a database error from `publish`. -/
inductive RunErr where
  | construct (e : MsgErr) : RunErr
  | store (e : DBErr) : RunErr
deriving DecidableEq, Repr

/-- The batch-collection `for` loop of `QueueThread.run`: dequeue up to
`batchsize` dictionaries and construct a `Message` from each.  An exhausted
queue raises `Empty`, which the loop's `except Empty: pass` swallows (third
component `none`); a construction error aborts collection with that error
pending (the failing item was already dequeued, the rest stay queued). -/
def collectBatch (now : Int) (hostname : String) :
    Nat → List (List (String × Val)) →
    List Message × List (List (String × Val)) × Option MsgErr
  | 0, q => ([], q, none)
  | _ + 1, [] => ([], [], none)
  | b + 1, d :: q =>
    match Message.init now hostname d with
    | .error e => ([], q, some e)
    | .ok m =>
      let (ms, q', pend) := collectBatch now hostname b q
      (m :: ms, q', pend)

/-- Outcome of running the publisher worker for a bounded number of cycles:
either the fuel ran out with the loop still alive, or an uncaught exception
escaped `run` and the thread died. -/
inductive RunResult where
  | fuelOut (db : DB) (q : List (List (String × Val))) : RunResult
  | crashed (e : RunErr) (db : DB) (q : List (List (String × Val))) : RunResult
deriving DecidableEq, Repr

/-- Embedding of `QueueThread.run` with the `terminated` flag never set and
the queue contents fixed up front.  Each cycle collects a batch inside
`try`, then the `finally` block publishes any collected messages.  Only
`Empty` is caught: an error from `publish`, or a pending construction
error, propagates out of the loop and kills the worker (`crashed`).  A
failed publish leaves the database as it was at the start of the cycle
(the session rolls back) and the batch is dropped. -/
def publisherRun (batchsize : Nat) (now : Int) (hostname : String) :
    Nat → List (List (String × Val)) → DB → RunResult
  | 0, q, db => .fuelOut db q
  | fuel + 1, q, db =>
    let (msgs, q', pend) := collectBatch now hostname batchsize q
    match msgs with
    | [] =>
      match pend with
      | some e => .crashed (.construct e) db q'
      | none => publisherRun batchsize now hostname fuel q' db
    | _ :: _ =>
      match publish msgs db with
      | .error se => .crashed (.store se) db q'
      | .ok db' =>
        match pend with
        | some e => .crashed (.construct e) db' q'
        | none => publisherRun batchsize now hostname fuel q' db'

/-- Default cache capacity of a bare `functools.lru_cache` decorator. -/
def cacheCapacity : Nat := 128

/-- The memoization cache of one of the `get_*` functions in `keys.py`:
`functools.lru_cache` keyed by the full argument tuple `(name, session)`,
most recent first. -/
structure KeyCache where
  entries : List ((String × Option Nat) × NameRow)
deriving DecidableEq, Repr

/-- Empty cache at process start. -/
def emptyCache : KeyCache := ⟨[]⟩

/-- Cache lookup by key. -/
def cacheFind (c : KeyCache) (k : String × Option Nat) : Option NameRow :=
  (c.entries.find? (fun e => decide (e.1 = k))).map (fun e => e.2)

/-- Embedding of the cached `get_level` (identical in shape to `get_topic`,
`get_host` and `get_subscriber`): a cache hit returns the memoized row and
promotes it to most-recently-used without touching the database; a miss
calls `__get` and inserts the result, evicting the least recent entry past
the capacity. -/
def get_level (fc : Bool) (c : KeyCache) (t : NameTable) (name : String) (sess : Option Nat) :
    Except DBErr (NameRow × KeyCache × NameTable) :=
  match cacheFind c (name, sess) with
  | some r =>
    .ok (r, ⟨((name, sess), r) :: c.entries.filter (fun e => decide (¬ e.1 = (name, sess)))⟩, t)
  | none =>
    match tableGet fc t (.vstr name) with
    | .error e => .error e
    | .ok (r, t') => .ok (r, ⟨(((name, sess), r) :: c.entries).take cacheCapacity⟩, t')

/-- Well-formedness of one `(id, name)` table: distinct ids, distinct
names, ids below the sequence counter, and names non-null (the NOT NULL
constraint). -/
structure TableWF (t : NameTable) : Prop where
  nodupIds : (t.rows.map (fun r => r.id)).Nodup
  nodupNames : (t.rows.map (fun r => r.name)).Nodup
  idsLt : ∀ r ∈ t.rows, r.id < t.nextId
  namesStr : ∀ r ∈ t.rows, ∃ s, r.name = Val.vstr s

/-- Well-formedness of the whole database: each name table well-formed,
message and access foreign keys resolving, and the access composite primary
key. -/
structure DBWF (db : DB) : Prop where
  topicsWF : TableWF db.topics
  levelsWF : TableWF db.levels
  hostsWF : TableWF db.hosts
  subscribersWF : TableWF db.subscribers
  msgTopics : ∀ m ∈ db.messages, ∃ r ∈ db.topics.rows, r.id = m.topic_id
  msgLevels : ∀ m ∈ db.messages, ∃ r ∈ db.levels.rows, r.id = m.level_id
  msgHosts : ∀ m ∈ db.messages, ∃ r ∈ db.hosts.rows, r.id = m.host_id
  accessSubs : ∀ a ∈ db.access, ∃ r ∈ db.subscribers.rows, r.id = a.subscriber_id
  accessTopics : ∀ a ∈ db.access, ∃ r ∈ db.topics.rows, r.id = a.topic_id
  accessPK : (db.access.map (fun a => (a.subscriber_id, a.topic_id))).Nodup

/-- Memoization-cache coherence: every cached row is exactly what the
unique-name lookup on the table returns for its key's name. -/
def CacheOK (c : KeyCache) (t : NameTable) : Prop :=
  ∀ e ∈ c.entries, tableFindName t (.vstr e.1.1) = some e.2

deriving instance DecidableEq for Except

/-! Helper lemmas about lookups and the interner. -/

theorem tableFindName_eq {t : NameTable} {v : Val} {r : NameRow}
    (h : tableFindName t v = some r) : r ∈ t.rows ∧ r.name = v := by
  unfold tableFindName at h
  have h1 := List.mem_of_find?_eq_some h
  have h2 := List.find?_some h
  simp only [decide_eq_true_eq] at h2
  exact ⟨h1, h2⟩

theorem tableFindName_none {t : NameTable} {v : Val} :
    tableFindName t v = none ↔ ∀ r ∈ t.rows, r.name ≠ v := by
  simp [tableFindName, List.find?_eq_none]

theorem tableFindName_append {rows ext : List NameRow} {n n' : Nat} {v : Val} {r : NameRow}
    (h : tableFindName ⟨rows, n⟩ v = some r) :
    tableFindName ⟨rows ++ ext, n'⟩ v = some r := by
  unfold tableFindName at *
  simp only at h ⊢
  rw [List.find?_append, h]
  rfl

theorem find_id_nodup {l : List NameRow} (hn : (l.map (fun x => x.id)).Nodup)
    {r : NameRow} (hr : r ∈ l) :
    l.find? (fun x => decide (x.id = r.id)) = some r := by
  induction l with
  | nil => cases hr
  | cons a l ih =>
    rcases List.mem_cons.mp hr with h | h
    · subst h
      simp [List.find?]
    · have hne : ¬ a.id = r.id := by
        intro he
        have : r.id ∈ l.map (fun x => x.id) := List.mem_map_of_mem _ h
        rw [← he] at this
        exact (List.nodup_cons.mp hn).1 this
      simp only [List.find?, decide_eq_false hne]
      exact ih (List.nodup_cons.mp hn).2 h

theorem resolveName_mem {t : NameTable} {r : NameRow}
    (hn : (t.rows.map (fun x => x.id)).Nodup) (hr : r ∈ t.rows) :
    resolveName t r.id = r.name := by
  unfold resolveName tableFindId
  rw [find_id_nodup hn hr]

theorem tableGet_found {fc : Bool} {t : NameTable} {v : Val} {r : NameRow}
    (h : tableFindName t v = some r) : tableGet fc t v = .ok (r, t) := by
  unfold tableGet tableGetRaced
  rw [h]

theorem tableGet_create {fc : Bool} {t : NameTable} {v : Val}
    (h : tableFindName t v = none) (hfc : fc = false) (hv : v ≠ .vnone) :
    tableGet fc t v = .ok (⟨t.nextId, v⟩, ⟨t.rows ++ [⟨t.nextId, v⟩], t.nextId + 1⟩) := by
  unfold tableGet tableGetRaced
  rw [h, hfc]
  simp [hv, h]

theorem tableGet_ok {fc : Bool} {t t' : NameTable} {v : Val} {r : NameRow}
    (h : tableGet fc t v = .ok (r, t')) :
    (tableFindName t v = some r ∧ t' = t) ∨
    (tableFindName t v = none ∧ fc = false ∧ v ≠ .vnone ∧
      r = ⟨t.nextId, v⟩ ∧ t' = ⟨t.rows ++ [⟨t.nextId, v⟩], t.nextId + 1⟩) := by
  unfold tableGet tableGetRaced at h
  cases hf : tableFindName t v with
  | some r0 =>
    rw [hf] at h
    left
    injection h with h'
    injection h' with h1 h2
    exact ⟨congrArg some h1, h2.symm⟩
  | none =>
    rw [hf] at h
    right
    by_cases hfc : fc = true
    · rw [if_pos hfc] at h
      cases h
    · rw [if_neg hfc] at h
      by_cases hv : v = Val.vnone
      · rw [if_pos hv] at h
        cases h
      · rw [if_neg hv] at h
        simp only [Option.isSome_none, Bool.false_eq_true, if_false] at h
        injection h with h'
        injection h' with h1 h2
        exact ⟨rfl, by revert hfc; cases fc <;> simp, hv, h1.symm, h2.symm⟩

theorem tableGet_find {fc : Bool} {t t' : NameTable} {v : Val} {r : NameRow}
    (h : tableGet fc t v = .ok (r, t')) : tableFindName t' v = some r := by
  rcases tableGet_ok h with ⟨hf, rfl⟩ | ⟨hf, _, _, rfl, rfl⟩
  · exact hf
  · unfold tableFindName at hf ⊢
    simp only at hf ⊢
    rw [List.find?_append, hf]
    simp [List.find?]

theorem tableGet_name {fc : Bool} {t t' : NameTable} {v : Val} {r : NameRow}
    (h : tableGet fc t v = .ok (r, t')) : r.name = v := by
  rcases tableGet_ok h with ⟨hf, _⟩ | ⟨_, _, _, rfl, _⟩
  · exact (tableFindName_eq hf).2
  · rfl

theorem tableGet_mem {fc : Bool} {t t' : NameTable} {v : Val} {r : NameRow}
    (h : tableGet fc t v = .ok (r, t')) : r ∈ t'.rows := by
  rcases tableGet_ok h with ⟨hf, rfl⟩ | ⟨_, _, _, rfl, rfl⟩
  · exact (tableFindName_eq hf).1
  · simp

theorem tableGet_ext {fc : Bool} {t t' : NameTable} {v : Val} {r : NameRow}
    (h : tableGet fc t v = .ok (r, t')) :
    ∃ ext, t'.rows = t.rows ++ ext := by
  rcases tableGet_ok h with ⟨_, rfl⟩ | ⟨_, _, _, _, rfl⟩
  · exact ⟨[], by simp⟩
  · exact ⟨[⟨t.nextId, v⟩], rfl⟩

theorem tableFindName_rows_ext {t t' : NameTable} {ext : List NameRow} {w : Val} {q : NameRow}
    (hr : t'.rows = t.rows ++ ext) (hq : tableFindName t w = some q) :
    tableFindName t' w = some q := by
  unfold tableFindName at *
  rw [hr, List.find?_append, hq]
  rfl

theorem tableGet_stable {fc : Bool} {t t' : NameTable} {v w : Val} {r q : NameRow}
    (h : tableGet fc t v = .ok (r, t')) (hq : tableFindName t w = some q) :
    tableFindName t' w = some q := by
  obtain ⟨ext, hrows⟩ := tableGet_ext h
  exact tableFindName_rows_ext hrows hq

theorem tableGet_wf {fc : Bool} {t t' : NameTable} {v : Val} {r : NameRow}
    (hwf : TableWF t) (h : tableGet fc t v = .ok (r, t'))
    (hs : ∃ s, v = Val.vstr s) : TableWF t' := by
  rcases tableGet_ok h with ⟨_, rfl⟩ | ⟨hf, _, _, _, rfl⟩
  · exact hwf
  · constructor
    · simp only [List.map_append, List.map_cons, List.map_nil]
      rw [List.nodup_append]
      refine ⟨hwf.nodupIds, List.nodup_singleton _, ?_⟩
      intro a ha hb
      simp only [List.mem_singleton] at hb
      subst hb
      obtain ⟨r', hr', hid⟩ := List.mem_map.mp ha
      exact absurd (hwf.idsLt r' hr') (by omega)
    · simp only [List.map_append, List.map_cons, List.map_nil]
      rw [List.nodup_append]
      refine ⟨hwf.nodupNames, List.nodup_singleton _, ?_⟩
      intro a ha hb
      simp only [List.mem_singleton] at hb
      subst hb
      obtain ⟨r', hr', hname⟩ := List.mem_map.mp ha
      exact (tableFindName_none.mp hf r' hr') hname
    · intro x hx
      rcases List.mem_append.mp hx with hx | hx
      · exact Nat.lt_succ_of_lt (hwf.idsLt x hx)
      · simp only [List.mem_singleton] at hx
        subst hx
        exact Nat.lt_succ_self _
    · intro x hx
      rcases List.mem_append.mp hx with hx | hx
      · exact hwf.namesStr x hx
      · simp only [List.mem_singleton] at hx
        subst hx
        exact hs

theorem internTopic_ok {db db' : DB} {v : Val} {r : NameRow}
    (h : internTopic db v = .ok (r, db')) :
    tableGet db.failCommit db.topics v = .ok (r, db'.topics) ∧
    db' = { db with topics := db'.topics } := by
  unfold internTopic at h
  cases htg : tableGet db.failCommit db.topics v with
  | error e => rw [htg] at h; cases h
  | ok p =>
    rw [htg] at h
    obtain ⟨r0, t0⟩ := p
    injection h with h'
    injection h' with h1 h2
    subst h1
    subst h2
    exact ⟨rfl, rfl⟩

theorem internLevel_ok {db db' : DB} {v : Val} {r : NameRow}
    (h : internLevel db v = .ok (r, db')) :
    tableGet db.failCommit db.levels v = .ok (r, db'.levels) ∧
    db' = { db with levels := db'.levels } := by
  unfold internLevel at h
  cases htg : tableGet db.failCommit db.levels v with
  | error e => rw [htg] at h; cases h
  | ok p =>
    rw [htg] at h
    obtain ⟨r0, t0⟩ := p
    injection h with h'
    injection h' with h1 h2
    subst h1
    subst h2
    exact ⟨rfl, rfl⟩

theorem internHost_ok {db db' : DB} {v : Val} {r : NameRow}
    (h : internHost db v = .ok (r, db')) :
    tableGet db.failCommit db.hosts v = .ok (r, db'.hosts) ∧
    db' = { db with hosts := db'.hosts } := by
  unfold internHost at h
  cases htg : tableGet db.failCommit db.hosts v with
  | error e => rw [htg] at h; cases h
  | ok p =>
    rw [htg] at h
    obtain ⟨r0, t0⟩ := p
    injection h with h'
    injection h' with h1 h2
    subst h1
    subst h2
    exact ⟨rfl, rfl⟩

theorem internSubscriber_ok {db db' : DB} {v : Val} {r : NameRow}
    (h : internSubscriber db v = .ok (r, db')) :
    tableGet db.failCommit db.subscribers v = .ok (r, db'.subscribers) ∧
    db' = { db with subscribers := db'.subscribers } := by
  unfold internSubscriber at h
  cases htg : tableGet db.failCommit db.subscribers v with
  | error e => rw [htg] at h; cases h
  | ok p =>
    rw [htg] at h
    obtain ⟨r0, t0⟩ := p
    injection h with h'
    injection h' with h1 h2
    subst h1
    subst h2
    exact ⟨rfl, rfl⟩

/-! Helper lemmas about the access table. -/

/-- Composite primary key invariant of the access table. -/
def AccessPKNodup (db : DB) : Prop :=
  (db.access.map (fun a => (a.subscriber_id, a.topic_id))).Nodup

theorem accessKey_eq {sid tid : Nat} {a : AccessRow} (h : accessKey sid tid a = true) :
    a.subscriber_id = sid ∧ a.topic_id = tid := by
  unfold accessKey at h
  simp only [Bool.and_eq_true, decide_eq_true_eq] at h
  exact h

theorem storedTime_eq (db : DB) {s t : String} {sr tr : NameRow}
    (hs : tableFindName db.subscribers (.vstr s) = some sr)
    (ht : tableFindName db.topics (.vstr t) = some tr) :
    storedTime s t db = (db.access.find? (accessKey sr.id tr.id)).map (fun a => a.time) := by
  unfold storedTime
  rw [hs, ht]

theorem find?_eq_head_filter {α : Type} (p : α → Bool) (l : List α) :
    l.find? p = (l.filter p).head? := by
  induction l with
  | nil => rfl
  | cons a l ih =>
    by_cases hp : p a = true
    · rw [List.find?_cons_of_pos _ hp, List.filter_cons_of_pos hp]
      rfl
    · rw [List.find?_cons_of_neg _ (by simpa using hp), List.filter_cons_of_neg (by simpa using hp)]
      exact ih

theorem find?_map_keykeep {α : Type} (f : α → α) (p : α → Bool)
    (hf : ∀ a, p (f a) = p a) (l : List α) :
    (l.map f).find? p = (l.find? p).map f := by
  induction l with
  | nil => rfl
  | cons a l ih =>
    by_cases hp : p a = true
    · simp [List.find?_cons, hf, hp]
    · simp [List.find?_cons, hf, hp, ih]

theorem access_filter_le_one {l : List AccessRow}
    (hn : (l.map (fun a => (a.subscriber_id, a.topic_id))).Nodup) (sid tid : Nat) :
    (l.filter (accessKey sid tid)).length ≤ 1 := by
  induction l with
  | nil => simp
  | cons a l ih =>
    simp only [List.map_cons, List.nodup_cons] at hn
    by_cases hp : accessKey sid tid a = true
    · have hnil : l.filter (accessKey sid tid) = [] := by
        rw [List.filter_eq_nil_iff]
        intro b hb hpb
        obtain ⟨hbs, hbt⟩ := accessKey_eq hpb
        obtain ⟨has, hat⟩ := accessKey_eq hp
        apply hn.1
        have : (fun x : AccessRow => (x.subscriber_id, x.topic_id)) b ∈
            l.map (fun x => (x.subscriber_id, x.topic_id)) := List.mem_map_of_mem _ hb
        simp only at this
        rw [hbs, hbt, ← has, ← hat] at this
        exact this
      simp [List.filter_cons, hp, hnil]
    · simp only [List.filter_cons, hp, if_false, Bool.false_eq_true]
      exact ih hn.2

/-- Success and effect of `tableGet` on a string name when the backend is
healthy: it never fails, and afterwards the name looks up to the returned
row. -/
theorem tableGet_str_ok {fc : Bool} (hfc : fc = false) (t : NameTable) (s : String) :
    ∃ r t', tableGet fc t (.vstr s) = .ok (r, t') := by
  cases hf : tableFindName t (.vstr s) with
  | some r => exact ⟨r, t, tableGet_found hf⟩
  | none =>
    exact ⟨_, _, tableGet_create hf hfc (by simp)⟩

theorem internSubscriber_str_ok {db : DB} (hfc : db.failCommit = false) (s : String) :
    ∃ r db', internSubscriber db (.vstr s) = .ok (r, db') := by
  obtain ⟨r, t', htg⟩ := tableGet_str_ok hfc db.subscribers s
  refine ⟨r, { db with subscribers := t' }, ?_⟩
  unfold internSubscriber
  rw [htg]

theorem internTopic_str_ok {db : DB} (hfc : db.failCommit = false) (s : String) :
    ∃ r db', internTopic db (.vstr s) = .ok (r, db') := by
  obtain ⟨r, t', htg⟩ := tableGet_str_ok hfc db.topics s
  refine ⟨r, { db with topics := t' }, ?_⟩
  unfold internTopic
  rw [htg]

/-- Success and effect of a single `update` call on a healthy backend with
a well-formed access primary key: it commits, and afterwards the stored
cursor time for the pair is exactly the `time` passed in, whatever it was
before. -/
theorem update_spec {s t : String} {τ : Int} {db : DB}
    (hfc : db.failCommit = false) (hpk : AccessPKNodup db) :
    ∃ db', update s t τ db = .ok db' ∧
      storedTime s t db' = some τ ∧
      db'.failCommit = false ∧
      AccessPKNodup db' := by
  obtain ⟨sub, db1, h1⟩ := internSubscriber_str_ok hfc s
  obtain ⟨htg1, hdb1⟩ := internSubscriber_ok h1
  have hfc1 : db1.failCommit = false := by rw [hdb1]; exact hfc
  obtain ⟨top, db2, h2⟩ := internTopic_str_ok hfc1 t
  obtain ⟨htg2, hdb2⟩ := internTopic_ok h2
  have hfc2 : db2.failCommit = false := by rw [hdb2]; exact hfc1
  have hacc2 : db2.access = db.access := by
    rw [hdb2, hdb1]
  have hsubs2 : db2.subscribers = db1.subscribers := by rw [hdb2]
  have hfindsub : tableFindName db2.subscribers (.vstr s) = some sub := by
    rw [hsubs2]
    exact tableGet_find htg1
  have hfindtop : tableFindName db2.topics (.vstr t) = some top := tableGet_find htg2
  have hpk2 : (db2.access.map (fun a => (a.subscriber_id, a.topic_id))).Nodup := by
    rw [hacc2]
    exact hpk
  have hle := access_filter_le_one hpk2 sub.id top.id
  have hrun : update s t τ db =
      (match db2.access.filter (accessKey sub.id top.id) with
      | [_] =>
        let upd := fun (a : AccessRow) =>
          if accessKey sub.id top.id a then { a with time := τ } else a
        commit { db2 with access := db2.access.map upd }
      | [] =>
        commit { db2 with access := db2.access ++ [⟨sub.id, top.id, τ⟩] }
      | _ => .error .multiple) := by
    unfold update
    rw [h1]
    simp only [bind, Except.bind]
    rw [h2]
  cases hfilter : db2.access.filter (accessKey sub.id top.id) with
  | nil =>
    rw [hfilter] at hrun
    refine ⟨{ db2 with access := db2.access ++ [⟨sub.id, top.id, τ⟩] }, ?_, ?_, hfc2, ?_⟩
    · rw [hrun]
      unfold commit
      simp [hfc2]
    · rw [storedTime_eq { db2 with access := db2.access ++ [⟨sub.id, top.id, τ⟩] }
        hfindsub hfindtop]
      have hnone : db2.access.find? (accessKey sub.id top.id) = none := by
        rw [find?_eq_head_filter, hfilter]
        rfl
      have hacc' : ({ db2 with access := db2.access ++ [⟨sub.id, top.id, τ⟩] } : DB).access
          = db2.access ++ [⟨sub.id, top.id, τ⟩] := rfl
      rw [hacc', List.find?_append, hnone]
      simp [List.find?, accessKey]
    · unfold AccessPKNodup
      simp only [List.map_append, List.map_cons, List.map_nil]
      rw [List.nodup_append]
      refine ⟨hpk2, List.nodup_singleton _, ?_⟩
      intro x hx hx'
      simp only [List.mem_singleton] at hx'
      subst hx'
      obtain ⟨b, hb, hbe⟩ := List.mem_map.mp hx
      have hbkey : accessKey sub.id top.id b = true := by
        unfold accessKey
        simp only [Prod.mk.injEq] at hbe
        simp [hbe.1, hbe.2]
      have : b ∈ db2.access.filter (accessKey sub.id top.id) :=
        List.mem_filter.mpr ⟨hb, hbkey⟩
      rw [hfilter] at this
      cases this
  | cons a rest =>
    cases rest with
    | nil =>
      rw [hfilter] at hrun
      set upd := fun (a : AccessRow) =>
        if accessKey sub.id top.id a then { a with time := τ } else a with hupd
      have hkeep : ∀ x, accessKey sub.id top.id (upd x) = accessKey sub.id top.id x := by
        intro x
        rw [hupd]
        by_cases hx : accessKey sub.id top.id x = true
        · simp only [hx, if_true]
          obtain ⟨h1', h2'⟩ := accessKey_eq hx
          unfold accessKey
          simp [h1', h2']
        · simp [hx]
      refine ⟨{ db2 with access := db2.access.map upd }, ?_, ?_, hfc2, ?_⟩
      · rw [hrun]
        unfold commit
        simp [hfc2]
      · rw [storedTime_eq { db2 with access := db2.access.map upd }
          hfindsub hfindtop]
        have hacc' : ({ db2 with access := db2.access.map upd } : DB).access
            = db2.access.map upd := rfl
        rw [hacc', find?_map_keykeep upd _ hkeep]
        have hfa : db2.access.find? (accessKey sub.id top.id) = some a := by
          rw [find?_eq_head_filter, hfilter]
          rfl
        rw [hfa]
        have ha : accessKey sub.id top.id a = true := by
          have := List.mem_filter.mp (by rw [hfilter]; exact List.mem_singleton_self a)
          exact this.2
        rw [hupd]
        simp [ha]
      · unfold AccessPKNodup
        have hpairs : (db2.access.map upd).map (fun a => (a.subscriber_id, a.topic_id)) =
            db2.access.map (fun a => (a.subscriber_id, a.topic_id)) := by
          rw [List.map_map]
          apply List.map_congr_left
          intro x _
          rw [hupd]
          by_cases hx : accessKey sub.id top.id x = true <;> simp [hx]
        simp only
        rw [hpairs]
        exact hpk2
    | cons b rest' =>
      exfalso
      rw [hfilter] at hle
      simp at hle

theorem applyUpdates_nil {s t : String} {db : DB} : applyUpdates s t [] db = .ok db := rfl

theorem applyUpdates_cons {s t : String} {τ : Int} {ts : List Int} {db : DB} :
    applyUpdates s t (τ :: ts) db = update s t τ db >>= applyUpdates s t ts := by
  unfold applyUpdates
  rfl

/-- C1 counterexample: the claim says the stored access time equals the
maximum time ever passed to `update` for the pair and that a non-advancing
`update` is a no-op.  On the code, calling `update` with time 5 and then
with time 3 leaves the stored cursor at 3, not at the maximum 5: the second
(non-advancing) call overwrote the cursor. -/
theorem C1_counterexample :
    (applyUpdates "sub" "tpc" [5, 3] emptyDB).map (storedTime "sub" "tpc") =
      .ok (some 3) ∧ max (5 : Int) 3 ≠ 3 :=
  ⟨rfl, by decide⟩

/-- C1 (amended): `update` is last-write-wins, not max.  For every finite
nonempty sequence of times passed to `update` for a fixed
`(subscriber, topic)` pair, the stored access time equals the time of the
most recent call; the cursor is monotonically non-decreasing only when the
callers respect the discipline of passing non-decreasing times, and a
non-advancing update moves the cursor backwards rather than being a
no-op. -/
theorem C1_update_last_write_wins {s t : String} {ts : List Int} {db : DB}
    (hfc : db.failCommit = false) (hpk : AccessPKNodup db) (hne : ts ≠ []) :
    ∃ db', applyUpdates s t ts db = .ok db' ∧ storedTime s t db' = ts.getLast? := by
  induction ts generalizing db with
  | nil => exact absurd rfl hne
  | cons τ rest ih =>
    obtain ⟨db1, hu, hst, hfc1, hpk1⟩ := update_spec (τ := τ) (s := s) (t := t) hfc hpk
    cases hrest : rest with
    | nil =>
      subst hrest
      refine ⟨db1, ?_, ?_⟩
      · rw [applyUpdates_cons, hu]
        rfl
      · simpa using hst
    | cons τ2 rest' =>
      subst hrest
      obtain ⟨db', happ, hlast⟩ := ih hfc1 hpk1 (by simp)
      refine ⟨db', ?_, ?_⟩
      · rw [applyUpdates_cons, hu]
        exact happ
      · rw [List.getLast?_cons_cons]
        exact hlast

/-- Witness for C1 (amended) at a concrete input. -/
theorem C1_update_last_write_wins_witness :
    ∃ db', applyUpdates "sub" "tpc" [5, 3] emptyDB = .ok db' ∧
      storedTime "sub" "tpc" db' = [5, 3].getLast? :=
  C1_update_last_write_wins (by rfl) (by unfold AccessPKNodup; simp [emptyDB]) (by simp)

/-! Helper lemmas about dictionary popping. -/

theorem dictPop_absent {k : String} {fs : List (String × Val)}
    (h : k ∉ fs.map Prod.fst) : dictPop k fs = none := by
  induction fs with
  | nil => rfl
  | cons a rest ih =>
    obtain ⟨k', v⟩ := a
    simp only [List.map_cons, List.mem_cons] at h
    push_neg at h
    unfold dictPop
    rw [if_neg (fun he => h.1 he.symm), ih h.2]

theorem dictPop_present {k : String} {fs : List (String × Val)}
    (h : k ∈ fs.map Prod.fst) : ∃ v fs', dictPop k fs = some (v, fs') := by
  induction fs with
  | nil => cases h
  | cons a rest ih =>
    obtain ⟨k', v⟩ := a
    by_cases he : k' = k
    · exact ⟨v, rest, by unfold dictPop; rw [if_pos he]⟩
    · simp only [List.map_cons, List.mem_cons] at h
      rcases h with h | h
      · exact absurd h.symm he
      · obtain ⟨w, fs', hp⟩ := ih h
        exact ⟨w, (k', v) :: fs', by unfold dictPop; rw [if_neg he, hp]⟩

theorem dictPop_sublist {k : String} {fs fs' : List (String × Val)} {v : Val}
    (h : dictPop k fs = some (v, fs')) : fs'.Sublist fs := by
  induction fs generalizing fs' with
  | nil => cases h
  | cons a rest ih =>
    obtain ⟨k', w⟩ := a
    unfold dictPop at h
    by_cases he : k' = k
    · rw [if_pos he] at h
      injection h with h'
      injection h' with h1 h2
      subst h2
      exact List.sublist_cons_self _ _
    · rw [if_neg he] at h
      cases hp : dictPop k rest with
      | none => rw [hp] at h; cases h
      | some p =>
        obtain ⟨w2, rest'⟩ := p
        rw [hp] at h
        injection h with h'
        injection h' with h1 h2
        subst h1
        subst h2
        exact List.Sublist.cons₂ _ (ih hp)

theorem dictPop_keeps_entry {k : String} {fs fs' : List (String × Val)} {v : Val}
    {e : String × Val} (hne : e.1 ≠ k) (hmem : e ∈ fs)
    (h : dictPop k fs = some (v, fs')) : e ∈ fs' := by
  induction fs generalizing fs' with
  | nil => cases h
  | cons a rest ih =>
    obtain ⟨k', w⟩ := a
    unfold dictPop at h
    by_cases he : k' = k
    · rw [if_pos he] at h
      injection h with h'
      injection h' with h1 h2
      subst h2
      rcases List.mem_cons.mp hmem with h | h
      · exfalso
        apply hne
        rw [h]
        exact he
      · exact h
    · rw [if_neg he] at h
      cases hp : dictPop k rest with
      | none => rw [hp] at h; cases h
      | some p =>
        obtain ⟨w2, rest'⟩ := p
        rw [hp] at h
        injection h with h'
        injection h' with h1 h2
        subst h1
        subst h2
        rcases List.mem_cons.mp hmem with h | h
        · exact List.mem_cons.mpr (Or.inl h)
        · exact List.mem_cons.mpr (Or.inr (ih h hp))

theorem dictPop_removes_key {k : String} {fs fs' : List (String × Val)} {v : Val}
    (hnodup : (fs.map Prod.fst).Nodup) (h : dictPop k fs = some (v, fs')) :
    k ∉ fs'.map Prod.fst := by
  induction fs generalizing fs' with
  | nil => cases h
  | cons a rest ih =>
    obtain ⟨k', w⟩ := a
    simp only [List.map_cons, List.nodup_cons] at hnodup
    unfold dictPop at h
    by_cases he : k' = k
    · rw [if_pos he] at h
      injection h with h'
      injection h' with h1 h2
      subst h2
      rw [← he]
      exact hnodup.1
    · rw [if_neg he] at h
      cases hp : dictPop k rest with
      | none => rw [hp] at h; cases h
      | some p =>
        obtain ⟨w2, rest'⟩ := p
        rw [hp] at h
        injection h with h'
        injection h' with h1 h2
        subst h1
        subst h2
        simp only [List.map_cons, List.mem_cons]
        push_neg
        exact ⟨fun hk => he hk.symm, ih hnodup.2 hp⟩

theorem dictPopD_sublist (k : String) (d : Val) (fs : List (String × Val)) :
    (dictPopD k d fs).2.Sublist fs := by
  unfold dictPopD
  cases hp : dictPop k fs with
  | none => exact List.Sublist.refl _
  | some p =>
    obtain ⟨v, fs'⟩ := p
    exact dictPop_sublist hp

theorem dictPopD_keeps_entry {k : String} {d : Val} {fs : List (String × Val)}
    {e : String × Val} (hne : e.1 ≠ k) (hmem : e ∈ fs) : e ∈ (dictPopD k d fs).2 := by
  unfold dictPopD
  cases hp : dictPop k fs with
  | none => exact hmem
  | some p =>
    obtain ⟨v, fs'⟩ := p
    exact dictPop_keeps_entry hne hmem hp

theorem dictPopD_removes_key {k : String} {d : Val} {fs : List (String × Val)}
    (hnodup : (fs.map Prod.fst).Nodup) : k ∉ (dictPopD k d fs).2.map Prod.fst := by
  unfold dictPopD
  cases hp : dictPop k fs with
  | none =>
    intro hk
    have hk' : k ∈ fs.map Prod.fst := hk
    obtain ⟨v, fs', hp'⟩ := dictPop_present hk'
    rw [hp'] at hp
    cases hp
  | some p =>
    obtain ⟨v, fs'⟩ := p
    exact dictPop_removes_key hnodup hp

theorem dictPopD_absent {k : String} {d : Val} {fs : List (String × Val)}
    (h : k ∉ fs.map Prod.fst) : dictPopD k d fs = (d, fs) := by
  unfold dictPopD
  rw [dictPop_absent h]

theorem keys_sublist_of_sublist {fs fs' : List (String × Val)} (h : fs'.Sublist fs) :
    (fs'.map Prod.fst).Sublist (fs.map Prod.fst) := h.map Prod.fst

theorem not_key_of_sublist {k : String} {fs fs' : List (String × Val)}
    (h : fs'.Sublist fs) (hk : k ∉ fs.map Prod.fst) : k ∉ fs'.map Prod.fst :=
  fun hmem => hk ((keys_sublist_of_sublist h).mem hmem)

theorem key_kept_popD {k : String} (kd : String) (d : Val) {fs : List (String × Val)}
    (hne : k ≠ kd) (h : k ∈ fs.map Prod.fst) :
    k ∈ (dictPopD kd d fs).2.map Prod.fst := by
  obtain ⟨e, he, hek⟩ := List.mem_map.mp h
  have hmem : e ∈ (dictPopD kd d fs).2 :=
    dictPopD_keeps_entry (by rw [hek]; exact hne) he
  rw [← hek]
  exact List.mem_map_of_mem _ hmem

theorem key_kept_pop {k : String} (kpop : String) {fs fs' : List (String × Val)} {v : Val}
    (hne : k ≠ kpop) (h : k ∈ fs.map Prod.fst)
    (hp : dictPop kpop fs = some (v, fs')) : k ∈ fs'.map Prod.fst := by
  obtain ⟨e, he, hek⟩ := List.mem_map.mp h
  have hmem : e ∈ fs' := dictPop_keeps_entry (by rw [hek]; exact hne) he hp
  rw [← hek]
  exact List.mem_map_of_mem _ hmem

theorem init_required_topic {now : Int} {hostname : String} {fields : List (String × Val)}
    (h : "topic" ∉ fields.map Prod.fst) :
    Message.init now hostname fields = .error (.required "topic") := by
  have h1 : ("topic" : String) ∉ (dictPopD "id" Val.vnone fields).2.map Prod.fst :=
    not_key_of_sublist (dictPopD_sublist _ _ _) h
  have h2 : ("topic" : String) ∉
      (dictPopD "time" (Val.vtime now) (dictPopD "id" Val.vnone fields).2).2.map Prod.fst :=
    not_key_of_sublist (dictPopD_sublist _ _ _) h1
  simp only [Message.init]
  rw [dictPop_absent h2]

theorem init_required_level {now : Int} {hostname : String} {fields : List (String × Val)}
    (htopic : "topic" ∈ fields.map Prod.fst) (h : "level" ∉ fields.map Prod.fst) :
    Message.init now hostname fields = .error (.required "level") := by
  have ht1 := key_kept_popD "id" Val.vnone (by decide) htopic
  have ht2 := key_kept_popD "time" (Val.vtime now) (by decide) ht1
  obtain ⟨tv, fs3, hp3⟩ := dictPop_present ht2
  have hl1 : ("level" : String) ∉ (dictPopD "id" Val.vnone fields).2.map Prod.fst :=
    not_key_of_sublist (dictPopD_sublist _ _ _) h
  have hl2 : ("level" : String) ∉
      (dictPopD "time" (Val.vtime now) (dictPopD "id" Val.vnone fields).2).2.map Prod.fst :=
    not_key_of_sublist (dictPopD_sublist _ _ _) hl1
  have hl3 : ("level" : String) ∉ fs3.map Prod.fst :=
    not_key_of_sublist (dictPop_sublist hp3) hl2
  simp only [Message.init]
  simp only [hp3]
  rw [dictPop_absent hl3]

theorem init_required_text {now : Int} {hostname : String} {fields : List (String × Val)}
    (htopic : "topic" ∈ fields.map Prod.fst) (hlevel : "level" ∈ fields.map Prod.fst)
    (h : "text" ∉ fields.map Prod.fst) :
    Message.init now hostname fields = .error (.required "text") := by
  have ht1 := key_kept_popD "id" Val.vnone (by decide) htopic
  have ht2 := key_kept_popD "time" (Val.vtime now) (by decide) ht1
  obtain ⟨tv, fs3, hp3⟩ := dictPop_present ht2
  have hle1 := key_kept_popD "id" Val.vnone (by decide) hlevel
  have hle2 := key_kept_popD "time" (Val.vtime now) (by decide) hle1
  have hle3 := key_kept_pop "topic" (by decide) hle2 hp3
  obtain ⟨lv, fs4, hp4⟩ := dictPop_present hle3
  have hx1 : ("text" : String) ∉ (dictPopD "id" Val.vnone fields).2.map Prod.fst :=
    not_key_of_sublist (dictPopD_sublist _ _ _) h
  have hx2 : ("text" : String) ∉
      (dictPopD "time" (Val.vtime now) (dictPopD "id" Val.vnone fields).2).2.map Prod.fst :=
    not_key_of_sublist (dictPopD_sublist _ _ _) hx1
  have hx3 : ("text" : String) ∉ fs3.map Prod.fst :=
    not_key_of_sublist (dictPop_sublist hp3) hx2
  have hx4 : ("text" : String) ∉ fs4.map Prod.fst :=
    not_key_of_sublist (dictPop_sublist hp4) hx3
  have hx5 : ("text" : String) ∉ (dictPopD "host" (Val.vstr hostname) fs4).2.map Prod.fst :=
    not_key_of_sublist (dictPopD_sublist _ _ _) hx4
  simp only [Message.init]
  simp only [hp3, hp4]
  rw [dictPop_absent hx5]

theorem init_ok_time {now : Int} {hostname : String} {fields : List (String × Val)}
    {m : Message} (h : Message.init now hostname fields = .ok m)
    (ht : "time" ∉ fields.map Prod.fst) : m.time = .vtime now := by
  have h1 : ("time" : String) ∉ (dictPopD "id" Val.vnone fields).2.map Prod.fst :=
    not_key_of_sublist (dictPopD_sublist _ _ _) ht
  have h2 : dictPopD "time" (Val.vtime now) (dictPopD "id" Val.vnone fields).2 =
      (Val.vtime now, (dictPopD "id" Val.vnone fields).2) := dictPopD_absent h1
  simp only [Message.init] at h
  rw [h2] at h
  dsimp only at h
  cases hp3 : dictPop "topic" (dictPopD "id" Val.vnone fields).2 with
  | none => rw [hp3] at h; cases h
  | some p =>
    obtain ⟨tv, fs3⟩ := p
    simp only [hp3] at h
    cases hp4 : dictPop "level" fs3 with
    | none => rw [hp4] at h; cases h
    | some p4 =>
      obtain ⟨lv, fs4⟩ := p4
      simp only [hp4] at h
      cases hp6 : dictPop "text" (dictPopD "host" (Val.vstr hostname) fs4).2 with
      | none => rw [hp6] at h; cases h
      | some p6 =>
        obtain ⟨xv, fs6⟩ := p6
        simp only [hp6] at h
        cases fs6 with
        | nil =>
          injection h with h'
          rw [← h']
        | cons e rest =>
          obtain ⟨k, w⟩ := e
          cases h

theorem init_ok_host {now : Int} {hostname : String} {fields : List (String × Val)}
    {m : Message} (h : Message.init now hostname fields = .ok m)
    (hh : "host" ∉ fields.map Prod.fst) : m.host = .vstr hostname := by
  have h1 : ("host" : String) ∉ (dictPopD "id" Val.vnone fields).2.map Prod.fst :=
    not_key_of_sublist (dictPopD_sublist _ _ _) hh
  have h2 : ("host" : String) ∉
      (dictPopD "time" (Val.vtime now) (dictPopD "id" Val.vnone fields).2).2.map Prod.fst :=
    not_key_of_sublist (dictPopD_sublist _ _ _) h1
  simp only [Message.init] at h
  cases hp3 : dictPop "topic" (dictPopD "time" (Val.vtime now)
      (dictPopD "id" Val.vnone fields).2).2 with
  | none => rw [hp3] at h; cases h
  | some p =>
    obtain ⟨tv, fs3⟩ := p
    simp only [hp3] at h
    have h3 : ("host" : String) ∉ fs3.map Prod.fst :=
      not_key_of_sublist (dictPop_sublist hp3) h2
    cases hp4 : dictPop "level" fs3 with
    | none => rw [hp4] at h; cases h
    | some p4 =>
      obtain ⟨lv, fs4⟩ := p4
      simp only [hp4] at h
      have h4 : ("host" : String) ∉ fs4.map Prod.fst :=
        not_key_of_sublist (dictPop_sublist hp4) h3
      have h5 : dictPopD "host" (Val.vstr hostname) fs4 = (Val.vstr hostname, fs4) :=
        dictPopD_absent h4
      rw [h5] at h
      dsimp only at h
      cases hp6 : dictPop "text" fs4 with
      | none => rw [hp6] at h; cases h
      | some p6 =>
        obtain ⟨xv, fs6⟩ := p6
        simp only [hp6] at h
        cases fs6 with
        | nil =>
          injection h with h'
          rw [← h']
        | cons e rest =>
          obtain ⟨k, w⟩ := e
          cases h

/-- C8: on construction of an in-memory `Message`, the fields `topic`,
`level` and `text` are required — omitting any of them fails with a
validation error (the `AttributeError` raised from the `KeyError`) — and
when omitted, `time` defaults to the current UTC time and `host` defaults
to the hostname captured at process start. -/
theorem C8_message_init_spec {now : Int} {hostname : String} {fields : List (String × Val)} :
    (("topic" ∉ fields.map Prod.fst ∨ "level" ∉ fields.map Prod.fst ∨
        "text" ∉ fields.map Prod.fst) →
      ∃ f, Message.init now hostname fields = .error (.required f)) ∧
    ∀ m, Message.init now hostname fields = .ok m →
      ("time" ∉ fields.map Prod.fst → m.time = .vtime now) ∧
      ("host" ∉ fields.map Prod.fst → m.host = .vstr hostname) := by
  constructor
  · intro hreq
    by_cases h1 : "topic" ∈ fields.map Prod.fst
    · by_cases h2 : "level" ∈ fields.map Prod.fst
      · rcases hreq with h | h | h
        · exact absurd h1 h
        · exact absurd h2 h
        · exact ⟨"text", init_required_text h1 h2 h⟩
      · exact ⟨"level", init_required_level h1 h2⟩
    · exact ⟨"topic", init_required_topic h1⟩
  · intro m hm
    exact ⟨init_ok_time hm, init_ok_host hm⟩

/-- Witness for C8 at concrete inputs: a missing `level` fails with a
required-field error, and a full construction defaults `time` and `host`. -/
theorem C8_message_init_spec_witness :
    (∃ f, Message.init 0 "hh" [("topic", Val.vstr "a")] = .error (.required f)) ∧
    ((⟨Val.vnone, Val.vtime 0, Val.vstr "a", Val.vstr "I", Val.vstr "hh",
        Val.vstr "x"⟩ : Message).time = Val.vtime 0 ∧
     (⟨Val.vnone, Val.vtime 0, Val.vstr "a", Val.vstr "I", Val.vstr "hh",
        Val.vstr "x"⟩ : Message).host = Val.vstr "hh") := by
  constructor
  · exact (@C8_message_init_spec 0 "hh" [("topic", Val.vstr "a")]).1
      (Or.inr (Or.inl (by decide)))
  · have h := (@C8_message_init_spec 0 "hh" [("topic", Val.vstr "a"),
      ("level", Val.vstr "I"), ("text", Val.vstr "x")]).2 _ rfl
    exact ⟨h.1 (by decide), h.2 (by decide)⟩

/-- Field names recognized by `Message.__init__`. -/
def recognizedFields : List String := ["id", "time", "topic", "level", "host", "text"]

/-- Leftover dictionary after all six pops of `Message.__init__` succeed or
default: it is a sub-dictionary of the input and, for an input without
duplicate keys, every leftover entry has an unrecognized key. -/
theorem init_leftover {now : Int} {hostname : String} {fields fs3 fs4 fs6 : List (String × Val)}
    {tv lv xv : Val}
    (hnodup : (fields.map Prod.fst).Nodup)
    (hp3 : dictPop "topic"
      (dictPopD "time" (Val.vtime now) (dictPopD "id" Val.vnone fields).2).2 = some (tv, fs3))
    (hp4 : dictPop "level" fs3 = some (lv, fs4))
    (hp6 : dictPop "text" (dictPopD "host" (Val.vstr hostname) fs4).2 = some (xv, fs6)) :
    fs6.Sublist fields ∧ ∀ e ∈ fs6, e.1 ∉ recognizedFields := by
  have s1 : (dictPopD "id" Val.vnone fields).2.Sublist fields := dictPopD_sublist _ _ _
  have s2 : (dictPopD "time" (Val.vtime now) (dictPopD "id" Val.vnone fields).2).2.Sublist
      (dictPopD "id" Val.vnone fields).2 := dictPopD_sublist _ _ _
  have s3 := dictPop_sublist hp3
  have s4 := dictPop_sublist hp4
  have s5 : (dictPopD "host" (Val.vstr hostname) fs4).2.Sublist fs4 := dictPopD_sublist _ _ _
  have s6 := dictPop_sublist hp6
  have s6to4 : fs6.Sublist fs4 := s6.trans s5
  have s6to3 : fs6.Sublist fs3 := s6to4.trans s4
  have s6to2 : fs6.Sublist
      (dictPopD "time" (Val.vtime now) (dictPopD "id" Val.vnone fields).2).2 := s6to3.trans s3
  have s6to1 : fs6.Sublist (dictPopD "id" Val.vnone fields).2 := s6to2.trans s2
  have s6all : fs6.Sublist fields := s6to1.trans s1
  have hn1 : ((dictPopD "id" Val.vnone fields).2.map Prod.fst).Nodup :=
    List.Nodup.sublist (keys_sublist_of_sublist s1) hnodup
  have hn2 : ((dictPopD "time" (Val.vtime now)
      (dictPopD "id" Val.vnone fields).2).2.map Prod.fst).Nodup :=
    List.Nodup.sublist (keys_sublist_of_sublist s2) hn1
  have hn3 : (fs3.map Prod.fst).Nodup :=
    List.Nodup.sublist (keys_sublist_of_sublist s3) hn2
  have hn4 : (fs4.map Prod.fst).Nodup :=
    List.Nodup.sublist (keys_sublist_of_sublist s4) hn3
  have hn5 : ((dictPopD "host" (Val.vstr hostname) fs4).2.map Prod.fst).Nodup :=
    List.Nodup.sublist (keys_sublist_of_sublist s5) hn4
  have hid : ("id" : String) ∉ fs6.map Prod.fst :=
    not_key_of_sublist s6to1 (dictPopD_removes_key hnodup)
  have htime : ("time" : String) ∉ fs6.map Prod.fst :=
    not_key_of_sublist s6to2 (dictPopD_removes_key hn1)
  have htpc : ("topic" : String) ∉ fs6.map Prod.fst :=
    not_key_of_sublist s6to3 (dictPop_removes_key hn2 hp3)
  have hlvl : ("level" : String) ∉ fs6.map Prod.fst :=
    not_key_of_sublist s6to4 (dictPop_removes_key hn3 hp4)
  have hhost : ("host" : String) ∉ fs6.map Prod.fst :=
    not_key_of_sublist s6 (dictPopD_removes_key hn4)
  have htext : ("text" : String) ∉ fs6.map Prod.fst :=
    dictPop_removes_key hn5 hp6
  refine ⟨s6all, ?_⟩
  intro e he hrec
  have hkey : e.1 ∈ fs6.map Prod.fst := List.mem_map_of_mem _ he
  simp only [recognizedFields, List.mem_cons, List.not_mem_nil, or_false] at hrec
  rcases hrec with h | h | h | h | h | h
  · exact hid (h ▸ hkey)
  · exact htime (h ▸ hkey)
  · exact htpc (h ▸ hkey)
  · exact hlvl (h ▸ hkey)
  · exact hhost (h ▸ hkey)
  · exact htext (h ▸ hkey)

/-- C10 counterexample: the claim says any construction containing an
unrecognized keyword raises an `AttributeError` naming that unexpected
field.  On the code, constructing with only the unknown field `foo` raises
the required-field error naming `topic` instead, because the required-field
`KeyError` fires before the leftover check is reached. -/
theorem C10_counterexample :
    Message.init 0 "h" [("foo", Val.vint 1)] = .error (.required "topic") ∧
    MsgErr.required "topic" ≠ MsgErr.unexpected "foo" :=
  ⟨rfl, by decide⟩

/-- C10 (amended): for a construction without duplicate keywords, if the
required fields `topic`, `level`, `text` are all present and some keyword is
outside the recognized set, the constructor raises `AttributeError` naming
an unexpected field of the input and no Message is produced; if a required
field is missing, the required-field error takes precedence (see the
counterexample).  Supplying only recognized fields never triggers the
unexpected-field error. -/
theorem C10_unknown_field {now : Int} {hostname : String} {fields : List (String × Val)}
    (hnodup : (fields.map Prod.fst).Nodup) :
    (("topic" ∈ fields.map Prod.fst ∧ "level" ∈ fields.map Prod.fst ∧
        "text" ∈ fields.map Prod.fst) →
      (∃ e ∈ fields, e.1 ∉ recognizedFields) →
      ∃ g, g ∉ recognizedFields ∧ g ∈ fields.map Prod.fst ∧
        Message.init now hostname fields = .error (.unexpected g)) ∧
    ((∀ e ∈ fields, e.1 ∈ recognizedFields) →
      ∀ f, Message.init now hostname fields ≠ .error (.unexpected f)) := by
  constructor
  · rintro ⟨ht, hl, hx⟩ ⟨e, he, hek⟩
    have ht1 := key_kept_popD "id" Val.vnone (by decide) ht
    have ht2 := key_kept_popD "time" (Val.vtime now) (by decide) ht1
    obtain ⟨tv, fs3, hp3⟩ := dictPop_present ht2
    have hl1 := key_kept_popD "id" Val.vnone (by decide) hl
    have hl2 := key_kept_popD "time" (Val.vtime now) (by decide) hl1
    have hl3 := key_kept_pop "topic" (by decide) hl2 hp3
    obtain ⟨lv, fs4, hp4⟩ := dictPop_present hl3
    have hx1 := key_kept_popD "id" Val.vnone (by decide) hx
    have hx2 := key_kept_popD "time" (Val.vtime now) (by decide) hx1
    have hx3 := key_kept_pop "topic" (by decide) hx2 hp3
    have hx4 := key_kept_pop "level" (by decide) hx3 hp4
    have hx5 := key_kept_popD "host" (Val.vstr hostname) (by decide) hx4
    obtain ⟨xv, fs6, hp6⟩ := dictPop_present hx5
    obtain ⟨hsub, hunrec⟩ := init_leftover hnodup hp3 hp4 hp6
    have hne : e.1 ≠ "id" ∧ e.1 ≠ "time" ∧ e.1 ≠ "topic" ∧ e.1 ≠ "level" ∧
        e.1 ≠ "host" ∧ e.1 ≠ "text" := by
      simp only [recognizedFields, List.mem_cons, List.not_mem_nil, or_false, not_or] at hek
      exact hek
    have he1 : e ∈ (dictPopD "id" Val.vnone fields).2 := dictPopD_keeps_entry hne.1 he
    have he2 : e ∈ (dictPopD "time" (Val.vtime now) (dictPopD "id" Val.vnone fields).2).2 :=
      dictPopD_keeps_entry hne.2.1 he1
    have he3 := dictPop_keeps_entry hne.2.2.1 he2 hp3
    have he4 := dictPop_keeps_entry hne.2.2.2.1 he3 hp4
    have he5 : e ∈ (dictPopD "host" (Val.vstr hostname) fs4).2 :=
      dictPopD_keeps_entry hne.2.2.2.2.1 he4
    have he6 := dictPop_keeps_entry hne.2.2.2.2.2 he5 hp6
    cases hfs6 : fs6 with
    | nil => rw [hfs6] at he6; cases he6
    | cons p rest =>
      obtain ⟨k, w⟩ := p
      refine ⟨k, ?_, ?_, ?_⟩
      · exact hunrec (k, w) (by rw [hfs6]; exact List.mem_cons_self _ _)
      · have hmem : (k, w) ∈ fields :=
          hsub.subset (by rw [hfs6]; exact List.mem_cons_self _ _)
        exact List.mem_map_of_mem _ hmem
      · simp only [Message.init, hp3, hp4, hp6, hfs6]
  · intro hall f heq
    by_cases h1 : "topic" ∈ fields.map Prod.fst
    · by_cases h2 : "level" ∈ fields.map Prod.fst
      · by_cases h3 : "text" ∈ fields.map Prod.fst
        · have ht1 := key_kept_popD "id" Val.vnone (by decide) h1
          have ht2 := key_kept_popD "time" (Val.vtime now) (by decide) ht1
          obtain ⟨tv, fs3, hp3⟩ := dictPop_present ht2
          have hl1 := key_kept_popD "id" Val.vnone (by decide) h2
          have hl2 := key_kept_popD "time" (Val.vtime now) (by decide) hl1
          have hl3 := key_kept_pop "topic" (by decide) hl2 hp3
          obtain ⟨lv, fs4, hp4⟩ := dictPop_present hl3
          have hx1 := key_kept_popD "id" Val.vnone (by decide) h3
          have hx2 := key_kept_popD "time" (Val.vtime now) (by decide) hx1
          have hx3 := key_kept_pop "topic" (by decide) hx2 hp3
          have hx4 := key_kept_pop "level" (by decide) hx3 hp4
          have hx5 := key_kept_popD "host" (Val.vstr hostname) (by decide) hx4
          obtain ⟨xv, fs6, hp6⟩ := dictPop_present hx5
          obtain ⟨hsub, hunrec⟩ := init_leftover hnodup hp3 hp4 hp6
          have hempty : fs6 = [] := by
            cases hfs6 : fs6 with
            | nil => rfl
            | cons p rest =>
              exfalso
              have hpmem : p ∈ fs6 := by rw [hfs6]; exact List.mem_cons_self _ _
              exact hunrec p hpmem (hall p (hsub.subset hpmem))
          simp only [Message.init, hp3, hp4, hp6, hempty] at heq
          cases heq
        · rw [init_required_text h1 h2 h3] at heq
          injection heq with h'
          cases h'
      · rw [init_required_level h1 h2] at heq
        injection heq with h'
        cases h'
    · rw [init_required_topic h1] at heq
      injection heq with h'
      cases h'

/-- Witness for C10 (amended) at a concrete input with an unknown field. -/
theorem C10_unknown_field_witness :
    ∃ g, g ∉ recognizedFields ∧
      g ∈ ([("topic", Val.vstr "a"), ("level", Val.vstr "I"), ("text", Val.vstr "x"),
        ("foo", Val.vint 1)].map Prod.fst) ∧
      Message.init 0 "hh" [("topic", Val.vstr "a"), ("level", Val.vstr "I"),
        ("text", Val.vstr "x"), ("foo", Val.vint 1)] = .error (.unexpected g) :=
  (C10_unknown_field (by decide)).1 (by decide)
    ⟨("foo", Val.vint 1), by decide, by decide⟩

theorem except_bind_error {ε α β : Type} (e : ε) (f : α → Except ε β) :
    (Except.error e : Except ε α) >>= f = .error e := rfl

theorem except_bind_ok {ε α β : Type} (a : α) (f : α → Except ε β) :
    (Except.ok a : Except ε α) >>= f = f a := rfl

/-- C6 counterexample: the claim says a uniqueness conflict from a
concurrent insert of the same name makes the interner retry the lookup and
return the existing row.  On the code, `__get` has no handler: with an
empty table at lookup time and the row `(1, "a")` present at commit time,
the operation surfaces the uniqueness error instead of returning the
existing row. -/
theorem C6_counterexample :
    tableGetRaced false emptyTable ⟨[⟨1, Val.vstr "a"⟩], 2⟩ (Val.vstr "a") =
      .error .unique ∧
    (Except.error DBErr.unique : Except DBErr (NameRow × NameTable)) ≠
      .ok (⟨1, Val.vstr "a"⟩, ⟨[⟨1, Val.vstr "a"⟩], 2⟩) :=
  ⟨rfl, by decide⟩

/-- C6 (amended): the interner does NOT tolerate a uniqueness conflict.
Whenever the initial lookup misses and a concurrent insert has made the
name present by commit time, `__get` propagates the uniqueness violation to
its caller instead of retrying the lookup; the subscriber engine mitigates
the race by spacing topic-worker starts instead. -/
theorem C6_no_retry {lookupT commitT : NameTable} {s : String}
    (hmiss : tableFindName lookupT (.vstr s) = none)
    (hconc : (tableFindName commitT (.vstr s)).isSome = true) :
    tableGetRaced false lookupT commitT (.vstr s) = .error .unique := by
  unfold tableGetRaced
  rw [hmiss]
  simp [hconc]

/-- Witness for C6 (amended) at the concrete racing tables. -/
theorem C6_no_retry_witness :
    tableGetRaced false emptyTable ⟨[⟨7, Val.vstr "topic.a"⟩], 8⟩ (Val.vstr "topic.a") =
      .error .unique :=
  C6_no_retry (by rfl) (by rfl)

/-! Behavior of the storage layer under a failing backend. -/

theorem tableGet_fc_ok {t t' : NameTable} {v : Val} {r : NameRow}
    (h : tableGet true t v = .ok (r, t')) : t' = t := by
  rcases tableGet_ok h with ⟨_, rfl⟩ | ⟨_, hf, _⟩
  · rfl
  · cases hf

theorem tableGet_fc_err {t : NameTable} {v : Val} {e : DBErr}
    (h : tableGet true t v = .error e) : e = .storage := by
  unfold tableGet tableGetRaced at h
  cases hf : tableFindName t v with
  | some r => rw [hf] at h; cases h
  | none =>
    rw [hf] at h
    rw [if_pos rfl] at h
    injection h with h'
    exact h'.symm

theorem internTopic_fc {db db' : DB} {v : Val} {r : NameRow} (hfc : db.failCommit = true)
    (h : internTopic db v = .ok (r, db')) : db' = db := by
  obtain ⟨htg, heq⟩ := internTopic_ok h
  rw [hfc] at htg
  have ht := tableGet_fc_ok htg
  rw [heq, ht]

theorem internLevel_fc {db db' : DB} {v : Val} {r : NameRow} (hfc : db.failCommit = true)
    (h : internLevel db v = .ok (r, db')) : db' = db := by
  obtain ⟨htg, heq⟩ := internLevel_ok h
  rw [hfc] at htg
  have ht := tableGet_fc_ok htg
  rw [heq, ht]

theorem internHost_fc {db db' : DB} {v : Val} {r : NameRow} (hfc : db.failCommit = true)
    (h : internHost db v = .ok (r, db')) : db' = db := by
  obtain ⟨htg, heq⟩ := internHost_ok h
  rw [hfc] at htg
  have ht := tableGet_fc_ok htg
  rw [heq, ht]

theorem internTopic_fc_err {db : DB} {v : Val} {e : DBErr} (hfc : db.failCommit = true)
    (h : internTopic db v = .error e) : e = .storage := by
  unfold internTopic at h
  cases htg : tableGet db.failCommit db.topics v with
  | error e' =>
    rw [htg] at h
    injection h with h'
    subst h'
    exact tableGet_fc_err (hfc ▸ htg)
  | ok p =>
    obtain ⟨r, t⟩ := p
    rw [htg] at h
    cases h

theorem internLevel_fc_err {db : DB} {v : Val} {e : DBErr} (hfc : db.failCommit = true)
    (h : internLevel db v = .error e) : e = .storage := by
  unfold internLevel at h
  cases htg : tableGet db.failCommit db.levels v with
  | error e' =>
    rw [htg] at h
    injection h with h'
    subst h'
    exact tableGet_fc_err (hfc ▸ htg)
  | ok p =>
    obtain ⟨r, t⟩ := p
    rw [htg] at h
    cases h

theorem internHost_fc_err {db : DB} {v : Val} {e : DBErr} (hfc : db.failCommit = true)
    (h : internHost db v = .error e) : e = .storage := by
  unfold internHost at h
  cases htg : tableGet db.failCommit db.hosts v with
  | error e' =>
    rw [htg] at h
    injection h with h'
    subst h'
    exact tableGet_fc_err (hfc ▸ htg)
  | ok p =>
    obtain ⟨r, t⟩ := p
    rw [htg] at h
    cases h

theorem to_record_fc {m : Message} {db : DB} (hfc : db.failCommit = true) :
    Message.to_record m db = .error .storage ∨
    ∃ d, Message.to_record m db = .ok (d, db) := by
  cases h1 : internTopic db m.topic with
  | error e =>
    left
    have he := internTopic_fc_err hfc h1
    subst he
    simp only [Message.to_record, h1, except_bind_error]
  | ok p =>
    obtain ⟨tr, db1⟩ := p
    have hdb1 : db1 = db := internTopic_fc hfc h1
    rw [hdb1] at h1
    cases h2 : internLevel db m.level with
    | error e =>
      left
      have he := internLevel_fc_err hfc h2
      subst he
      simp only [Message.to_record, h1, except_bind_ok, h2, except_bind_error]
    | ok p2 =>
      obtain ⟨lr, db2⟩ := p2
      have hdb2 : db2 = db := internLevel_fc hfc h2
      rw [hdb2] at h2
      cases h3 : internHost db m.host with
      | error e =>
        left
        have he := internHost_fc_err hfc h3
        subst he
        simp only [Message.to_record, h1, except_bind_ok, h2, h3, except_bind_error]
      | ok p3 =>
        obtain ⟨hr, db3⟩ := p3
        have hdb3 : db3 = db := internHost_fc hfc h3
        rw [hdb3] at h3
        right
        exact ⟨⟨m.id, m.time.timeOf, tr.id, lr.id, hr.id, m.text⟩,
          by simp only [Message.to_record, h1, except_bind_ok, h2, h3]⟩

theorem toRecords_fc (msgs : List Message) {db : DB} (hfc : db.failCommit = true) :
    toRecords msgs db = .error .storage ∨ ∃ ds, toRecords msgs db = .ok (ds, db) := by
  induction msgs with
  | nil => exact Or.inr ⟨[], rfl⟩
  | cons m ms ih =>
    rcases to_record_fc (m := m) hfc with h | ⟨d, h⟩
    · left
      simp only [toRecords, h, except_bind_error]
    · rcases ih with h2 | ⟨ds, h2⟩
      · left
        simp only [toRecords, h, except_bind_ok, h2, except_bind_error]
      · right
        exact ⟨d :: ds, by simp only [toRecords, h, except_bind_ok, h2]⟩

/-- Publishing any batch against a backend whose commits are rejected fails
with the storage error: either an interner commit or the final batch commit
is rejected. -/
theorem publish_fails {msgs : List Message} {db : DB} (hfc : db.failCommit = true) :
    publish msgs db = .error .storage := by
  rcases toRecords_fc msgs hfc with h | ⟨ds, h⟩
  · simp only [publish, h, except_bind_error]
  · simp only [publish, h, except_bind_ok]
    rcases hA : assignIds db.nextMessageId ds with ⟨rows, n⟩
    simp only [hA]
    unfold commit
    simp [hfc]

theorem collectBatch_nil (now : Int) (hostname : String) (b : Nat) :
    collectBatch now hostname b [] = ([], [], none) := by
  cases b <;> rfl

theorem collectBatch_all_ok {now : Int} {hostname : String} {b : Nat}
    {q : List (List (String × Val))}
    (hok : ∀ d ∈ q.take b, ∃ m, Message.init now hostname d = .ok m) :
    ∃ msgs, collectBatch now hostname b q = (msgs, q.drop b, none) ∧
      msgs.length = (q.take b).length := by
  induction b generalizing q with
  | zero => exact ⟨[], rfl, rfl⟩
  | succ b ih =>
    cases q with
    | nil => exact ⟨[], by rw [collectBatch_nil, List.drop_nil], by simp⟩
    | cons d rest =>
      obtain ⟨m, hm⟩ := hok d (by simp)
      obtain ⟨ms, hcb, hlen⟩ := ih (q := rest)
        (fun d' hd' => hok d' (by simp; exact Or.inr hd'))
      refine ⟨m :: ms, ?_, ?_⟩
      · simp only [collectBatch, hm, hcb, List.drop_succ_cons]
      · simp [hlen]

/-- C2 counterexample: the claim says an exception raised by `publish`
inside the worker is caught and logged and the loop continues to its next
cycle.  On the code, `publish` runs in the `finally` block with only
`Empty` handled: with a backend that rejects the commit, the run ends in
the `crashed` outcome (the exception escaped `run` and the thread died)
instead of the `fuelOut` outcome a surviving loop would reach. -/
theorem C2_counterexample :
    publisherRun 10 0 "hh" 2
      [[("text", Val.vstr "x"), ("topic", Val.vstr "a"), ("level", Val.vstr "I")]]
      { emptyDB with failCommit := true } =
      .crashed (.store .storage) { emptyDB with failCommit := true } [] ∧
    RunResult.crashed (.store .storage) { emptyDB with failCommit := true } [] ≠
      .fuelOut { emptyDB with failCommit := true } [] :=
  ⟨rfl, by decide⟩

/-- C2 (amended): an exception raised by `publish` in the worker loop is
NOT caught: it propagates out of `run` and terminates the worker thread.
The partial batch is dropped — the database is left as it was at the start
of the cycle and the messages are never retried — and the remaining queue
items are left unprocessed (their `task_done` is never called). -/
theorem C2_worker_dies {b fuel : Nat} {now : Int} {hostname : String}
    {q : List (List (String × Val))} {db : DB}
    (hfc : db.failCommit = true) (hb : 1 ≤ b) (hne : q ≠ [])
    (hok : ∀ d ∈ q.take b, ∃ m, Message.init now hostname d = .ok m) :
    publisherRun b now hostname (fuel + 1) q db =
      .crashed (.store .storage) db (q.drop b) := by
  obtain ⟨msgs, hcb, hlen⟩ := collectBatch_all_ok hok
  have hmne : msgs ≠ [] := by
    intro h0
    rw [h0] at hlen
    have h1 : (q.take b).length = min b q.length := List.length_take _ _
    rw [h1] at hlen
    cases q with
    | nil => exact hne rfl
    | cons d rest =>
      simp only [List.length_cons, List.length_nil] at hlen
      omega
  cases hmsgs : msgs with
  | nil => exact absurd hmsgs hmne
  | cons m ms =>
    rw [hmsgs] at hcb
    have hpub : publish (m :: ms) db = .error .storage := publish_fails hfc
    simp only [publisherRun, hcb, hpub]

/-- Witness for C2 (amended) at a concrete queue and failing backend. -/
theorem C2_worker_dies_witness :
    publisherRun 1 0 "hh" 3
      [[("text", Val.vstr "x"), ("topic", Val.vstr "a"), ("level", Val.vstr "I")]]
      { emptyDB with failCommit := true } =
      .crashed (.store .storage) { emptyDB with failCommit := true }
        ([[("text", Val.vstr "x"), ("topic", Val.vstr "a"),
          ("level", Val.vstr "I")]].drop 1) :=
  @C2_worker_dies 1 2 0 "hh"
    [[("text", Val.vstr "x"), ("topic", Val.vstr "a"), ("level", Val.vstr "I")]]
    { emptyDB with failCommit := true } rfl (by decide) (by decide)
    (fun d hd => by
      simp only [List.take, List.mem_singleton] at hd
      subst hd
      exact ⟨_, rfl⟩)

/-- C4 counterexample: the claim says a write missing both the per-call and
the bound topic/level fails at publish time with a validation error from
the Message construction.  On the code, `Publisher.write` always places the
`topic` and `level` keys in the dictionary (with value `None` when absent),
so the worker's `Message(**fields)` construction SUCCEEDS — no
`AttributeError` is raised at construction. -/
theorem C4_counterexample :
    Message.init 0 "hh" (Publisher.write none none "hello" none none) =
      .ok ⟨.vnone, .vtime 0, .vnone, .vnone, .vstr "hh", .vstr "hello"⟩ :=
  rfl

/-- C4 (amended): for a Publisher with no bound topic or level and a write
that omits both per-call values, the enqueue succeeds and the worker's
Message construction ALSO succeeds (yielding a message whose topic and
level are `None`); the failure happens later inside `publish`, when
interning the `None` topic violates the NOT NULL constraint of the topic
table — a database integrity error, not the validation error of 4.3 — and
that error kills the worker as in C2. -/
theorem C4_no_validation_error {db : DB} {now : Int} {hostname text : String} {b fuel : Nat}
    (hfc : db.failCommit = false)
    (hnn : ∀ r ∈ db.topics.rows, r.name ≠ Val.vnone)
    (hb : 1 ≤ b) :
    (∃ m, Message.init now hostname (Publisher.write none none text none none) = .ok m) ∧
    publisherRun b now hostname (fuel + 1) [Publisher.write none none text none none] db =
      .crashed (.store .integrity) db [] := by
  have hinit : Message.init now hostname (Publisher.write none none text none none) =
      .ok ⟨Val.vnone, Val.vtime now, Val.vnone, Val.vnone, Val.vstr hostname,
        Val.vstr text⟩ := rfl
  refine ⟨⟨_, hinit⟩, ?_⟩
  obtain ⟨b', rfl⟩ : ∃ b', b = b' + 1 := ⟨b - 1, by omega⟩
  have hcb : collectBatch now hostname (b' + 1) [Publisher.write none none text none none] =
      ([⟨Val.vnone, Val.vtime now, Val.vnone, Val.vnone, Val.vstr hostname,
        Val.vstr text⟩], [], none) := by
    simp only [collectBatch, hinit, collectBatch_nil]
  have h1 : internTopic db Val.vnone = .error .integrity := by
    unfold internTopic tableGet tableGetRaced
    rw [tableFindName_none.mpr hnn, hfc]
    simp
  have h2 : Message.to_record ⟨Val.vnone, Val.vtime now, Val.vnone, Val.vnone,
      Val.vstr hostname, Val.vstr text⟩ db = .error .integrity := by
    simp only [Message.to_record, h1, except_bind_error]
  have h3 : toRecords [⟨Val.vnone, Val.vtime now, Val.vnone, Val.vnone,
      Val.vstr hostname, Val.vstr text⟩] db = .error .integrity := by
    simp only [toRecords, h2, except_bind_error]
  have hpub : publish [⟨Val.vnone, Val.vtime now, Val.vnone, Val.vnone,
      Val.vstr hostname, Val.vstr text⟩] db = .error .integrity := by
    simp only [publish, h3, except_bind_error]
  simp only [publisherRun, hcb, hpub]

/-- Witness for C4 (amended) on the empty database. -/
theorem C4_no_validation_error_witness :
    (∃ m, Message.init 0 "hh" (Publisher.write none none "hello" none none) = .ok m) ∧
    publisherRun 10 0 "hh" 1 [Publisher.write none none "hello" none none] emptyDB =
      .crashed (.store .integrity) emptyDB [] :=
  @C4_no_validation_error emptyDB 0 "hh" "hello" 10 0 rfl
    (fun r hr => absurd hr (List.not_mem_nil r)) (by decide)

theorem internLevel_str_ok {db : DB} (hfc : db.failCommit = false) (s : String) :
    ∃ r db', internLevel db (.vstr s) = .ok (r, db') := by
  obtain ⟨r, t', htg⟩ := tableGet_str_ok hfc db.levels s
  refine ⟨r, { db with levels := t' }, ?_⟩
  unfold internLevel
  rw [htg]

theorem internHost_str_ok {db : DB} (hfc : db.failCommit = false) (s : String) :
    ∃ r db', internHost db (.vstr s) = .ok (r, db') := by
  obtain ⟨r, t', htg⟩ := tableGet_str_ok hfc db.hosts s
  refine ⟨r, { db with hosts := t' }, ?_⟩
  unfold internHost
  rw [htg]

theorem assignIds_singleton (next : Nat) (d : MessageDraft) :
    ∃ i n, assignIds next [d] =
      ([⟨i, d.time, d.topic_id, d.level_id, d.host_id, d.text⟩], n) := by
  cases hdi : d.id with
  | vint i => exact ⟨i, next, by simp [assignIds, hdi]⟩
  | vnone => exact ⟨next, next + 1, by simp [assignIds, hdi]⟩
  | vstr s => exact ⟨next, next + 1, by simp [assignIds, hdi]⟩
  | vtime t => exact ⟨next, next + 1, by simp [assignIds, hdi]⟩

theorem emptyTable_wf : TableWF emptyTable :=
  ⟨List.nodup_nil, List.nodup_nil, fun r hr => absurd hr (List.not_mem_nil r),
   fun r hr => absurd hr (List.not_mem_nil r)⟩

theorem emptyDB_wf : DBWF emptyDB :=
  ⟨emptyTable_wf, emptyTable_wf, emptyTable_wf, emptyTable_wf,
   fun m hm => absurd hm (List.not_mem_nil m),
   fun m hm => absurd hm (List.not_mem_nil m),
   fun m hm => absurd hm (List.not_mem_nil m),
   fun a ha => absurd ha (List.not_mem_nil a),
   fun a ha => absurd ha (List.not_mem_nil a),
   List.nodup_nil⟩

/-- C7: `publish([])` leaves the database (in particular the message table)
unchanged, and `publish([m])` for an in-memory message with string topic,
level and host names adds exactly one message row, committed by the single
commit of `publish`, whose three foreign keys resolve through the interned
tables back to `m.topic`, `m.level` and `m.host`, and which carries `m`'s
time and text. -/
theorem C7_publish_spec {db : DB} (hfc : db.failCommit = false) (hwf : DBWF db)
    {m : Message} {a b c : String}
    (hta : m.topic = .vstr a) (hlb : m.level = .vstr b) (hhc : m.host = .vstr c) :
    publish [] db = .ok db ∧
    ∃ db' row, publish [m] db = .ok db' ∧
      db'.messages = db.messages ++ [row] ∧
      resolveName db'.topics row.topic_id = .vstr a ∧
      resolveName db'.levels row.level_id = .vstr b ∧
      resolveName db'.hosts row.host_id = .vstr c ∧
      row.time = m.time.timeOf ∧ row.text = m.text := by
  constructor
  · show publish [] db = .ok db
    unfold publish toRecords
    rw [except_bind_ok]
    show commit { db with messages := db.messages ++ [], nextMessageId := db.nextMessageId } =
      .ok db
    rw [List.append_nil]
    show commit db = .ok db
    unfold commit
    rw [hfc]
    simp
  · obtain ⟨tr, db1, h1⟩ := internTopic_str_ok hfc a
    obtain ⟨htg1, hdb1⟩ := internTopic_ok h1
    have hfc1 : db1.failCommit = false := by rw [hdb1]; exact hfc
    obtain ⟨lr, db2, h2⟩ := internLevel_str_ok hfc1 b
    obtain ⟨htg2, hdb2⟩ := internLevel_ok h2
    have hfc2 : db2.failCommit = false := by rw [hdb2]; exact hfc1
    obtain ⟨hr, db3, h3⟩ := internHost_str_ok hfc2 c
    obtain ⟨htg3, hdb3⟩ := internHost_ok h3
    have hfc3 : db3.failCommit = false := by rw [hdb3]; exact hfc2
    have h1' : internTopic db m.topic = .ok (tr, db1) := by rw [hta]; exact h1
    have h2' : internLevel db1 m.level = .ok (lr, db2) := by rw [hlb]; exact h2
    have h3' : internHost db2 m.host = .ok (hr, db3) := by rw [hhc]; exact h3
    have hrec : toRecords [m] db =
        .ok ([⟨m.id, m.time.timeOf, tr.id, lr.id, hr.id, m.text⟩], db3) := by
      simp only [toRecords, Message.to_record, h1', except_bind_ok, h2', h3']
    obtain ⟨i, n, hAid⟩ :=
      assignIds_singleton db3.nextMessageId ⟨m.id, m.time.timeOf, tr.id, lr.id, hr.id, m.text⟩
    have hpub : publish [m] db =
        .ok { db3 with
          messages := db3.messages ++ [⟨i, m.time.timeOf, tr.id, lr.id, hr.id, m.text⟩],
          nextMessageId := n } := by
      simp only [publish, hrec, except_bind_ok, hAid]
      unfold commit
      simp [hfc3]
    -- the three tables in db3 and where each row lives
    have htop3 : db3.topics = db1.topics := by rw [hdb3, hdb2]
    have hlev3 : db3.levels = db2.levels := by rw [hdb3]
    have hmsg1 : db1.messages = db.messages := by rw [hdb1]
    have hmsg2 : db2.messages = db1.messages := by rw [hdb2]
    have hmsg3 : db3.messages = db2.messages := by rw [hdb3]
    have hlev1 : db1.levels = db.levels := by rw [hdb1]
    have hhost1 : db1.hosts = db.hosts := by rw [hdb1]
    have hhost2 : db2.hosts = db1.hosts := by rw [hdb2]
    -- well-formedness of the updated tables
    have hwft : TableWF db1.topics :=
      tableGet_wf hwf.topicsWF htg1 ⟨a, rfl⟩
    have hwfl : TableWF db2.levels := by
      apply tableGet_wf (t := db1.levels) _ htg2 ⟨b, rfl⟩
      rw [hlev1]
      exact hwf.levelsWF
    have hwfh : TableWF db3.hosts := by
      apply tableGet_wf (t := db2.hosts) _ htg3 ⟨c, rfl⟩
      rw [hhost2, hhost1]
      exact hwf.hostsWF
    refine ⟨_, ⟨i, m.time.timeOf, tr.id, lr.id, hr.id, m.text⟩, hpub, ?_, ?_, ?_, ?_, rfl, rfl⟩
    · show db3.messages ++ _ = db.messages ++ _
      rw [hmsg3, hmsg2, hmsg1]
    · show resolveName db3.topics tr.id = .vstr a
      rw [htop3]
      have := resolveName_mem hwft.nodupIds (tableGet_mem htg1)
      rw [this, tableGet_name htg1]
    · show resolveName db3.levels lr.id = .vstr b
      rw [hlev3]
      have := resolveName_mem hwfl.nodupIds (tableGet_mem htg2)
      rw [this, tableGet_name htg2]
    · show resolveName db3.hosts hr.id = .vstr c
      have := resolveName_mem hwfh.nodupIds (tableGet_mem htg3)
      rw [this, tableGet_name htg3]

/-- Witness for C7 on the empty database and a concrete message. -/
theorem C7_publish_spec_witness :
    publish [] emptyDB = .ok emptyDB ∧
    ∃ db' row,
      publish [⟨Val.vnone, Val.vtime 4, Val.vstr "demo", Val.vstr "INFO",
        Val.vstr "hh", Val.vstr "hello"⟩] emptyDB = .ok db' ∧
      db'.messages = emptyDB.messages ++ [row] ∧
      resolveName db'.topics row.topic_id = .vstr "demo" ∧
      resolveName db'.levels row.level_id = .vstr "INFO" ∧
      resolveName db'.hosts row.host_id = .vstr "hh" ∧
      row.time = (Val.vtime 4).timeOf ∧ row.text = Val.vstr "hello" :=
  C7_publish_spec rfl emptyDB_wf rfl rfl rfl

/-! Helper lemmas for `latest`. -/

/-- Observation: the access row the current database stores for the pair
`(s, t)`, resolved by unique-name lookups without modifying anything. -/
def accessRowFor (s t : String) (db : DB) : Option AccessRow :=
  match tableFindName db.subscribers (.vstr s), tableFindName db.topics (.vstr t) with
  | some sr, some tr => db.access.find? (accessKey sr.id tr.id)
  | _, _ => none

/-- Observation: the message rows currently on topic `t`, or `[]` when the
topic name is not interned. -/
def msgsOn (t : String) (db : DB) : List MessageRow :=
  match tableFindName db.topics (.vstr t) with
  | some tr => db.messages.filter (fun m => decide (m.topic_id = tr.id))
  | none => []

theorem insertionSort_head_min {l : List MessageRow} {m : MessageRow}
    (h : (l.insertionSort msgTimeLe).head? = some m) :
    m ∈ l ∧ ∀ x ∈ l, m.time ≤ x.time := by
  have hsorted := List.sorted_insertionSort msgTimeLe l
  cases hs : l.insertionSort msgTimeLe with
  | nil => rw [hs] at h; cases h
  | cons a rest =>
    rw [hs] at h
    injection h with h'
    subst h'
    constructor
    · have hmem : a ∈ l.insertionSort msgTimeLe := by
        rw [hs]
        exact List.mem_cons_self _ _
      exact (List.mem_insertionSort _).mp hmem
    · intro x hx
      have hx' : x ∈ l.insertionSort msgTimeLe := (List.mem_insertionSort _).mpr hx
      rw [hs] at hx'
      rcases List.mem_cons.mp hx' with hxe | hxm
      · subst hxe
        exact le_refl _
      · rw [hs] at hsorted
        exact (List.sorted_cons.mp hsorted).1 x hxm

theorem insertionSort_ne_nil {l : List MessageRow} (h : l ≠ []) :
    l.insertionSort msgTimeLe ≠ [] := by
  intro h0
  apply h
  have := List.length_insertionSort msgTimeLe l
  rw [h0] at this
  exact List.length_eq_zero.mp this.symm

theorem internSubscriber_found {db : DB} {v : Val} {sub : NameRow}
    (hf : tableFindName db.subscribers v = some sub) :
    internSubscriber db v = .ok (sub, db) := by
  unfold internSubscriber
  rw [tableGet_found hf]

theorem internTopic_found {db : DB} {v : Val} {top : NameRow}
    (hf : tableFindName db.topics v = some top) :
    internTopic db v = .ok (top, db) := by
  unfold internTopic
  rw [tableGet_found hf]

/-- C5: `latest(s, t)` returns the existing access row unchanged when one
exists; otherwise it creates, commits and returns a row whose time is the
time of the earliest message on the topic, or the current time when the
topic has no messages; and a second call right after returns the same
cursor row with no further change. -/
theorem C5_latest_spec {s t : String} {now : Int} {db : DB}
    (hfc : db.failCommit = false) (hwf : DBWF db) :
    ∃ a db', latest s t now db = .ok (a, db') ∧
      (∀ a0, accessRowFor s t db = some a0 → a = a0 ∧ db' = db) ∧
      (accessRowFor s t db = none → msgsOn t db = [] → a.time = now) ∧
      (accessRowFor s t db = none → msgsOn t db ≠ [] →
        ∃ m0 ∈ msgsOn t db, a.time = m0.time ∧ ∀ x ∈ msgsOn t db, m0.time ≤ x.time) ∧
      (∀ now', latest s t now' db' = .ok (a, db')) := by
  obtain ⟨sub, db1, h1⟩ := internSubscriber_str_ok hfc s
  obtain ⟨htg1, hdb1⟩ := internSubscriber_ok h1
  have hfc1 : db1.failCommit = false := by rw [hdb1]; exact hfc
  obtain ⟨top, db2, h2⟩ := internTopic_str_ok hfc1 t
  obtain ⟨htg2, hdb2⟩ := internTopic_ok h2
  have hfc2 : db2.failCommit = false := by rw [hdb2]; exact hfc1
  have hacc2 : db2.access = db.access := by rw [hdb2, hdb1]
  have hmsg2 : db2.messages = db.messages := by rw [hdb2, hdb1]
  have hsubs2 : db2.subscribers = db1.subscribers := by rw [hdb2]
  have htop1 : db1.topics = db.topics := by rw [hdb1]
  have hfindsub2 : tableFindName db2.subscribers (.vstr s) = some sub := by
    rw [hsubs2]
    exact tableGet_find htg1
  have hfindtop2 : tableFindName db2.topics (.vstr t) = some top := tableGet_find htg2
  have htg2' : tableGet db1.failCommit db.topics (.vstr t) = .ok (top, db2.topics) := by
    rw [← htop1]
    exact htg2
  have hmatch : ∀ now0 : Int, latest s t now0 db =
      (match db2.access.filter (accessKey sub.id top.id) with
       | [a] => .ok (a, db2)
       | [] =>
         let onTopic := db2.messages.filter (fun m => decide (m.topic_id = top.id))
         let tval : Int :=
           match (onTopic.insertionSort msgTimeLe).head? with
           | none => now0
           | some m => m.time
         let a : AccessRow := ⟨sub.id, top.id, tval⟩
         commit { db2 with access := db2.access ++ [a] } >>= fun db3 => .ok (a, db3)
       | _ => .error .multiple) := by
    intro now0
    unfold latest
    rw [h1]
    simp only [bind, Except.bind]
    rw [h2]
  have hle : (db2.access.filter (accessKey sub.id top.id)).length ≤ 1 := by
    apply access_filter_le_one
    rw [hacc2]
    exact hwf.accessPK
  cases hfilter : db2.access.filter (accessKey sub.id top.id) with
  | cons a0 rest =>
    cases rest with
    | cons b0 rest' =>
      exfalso
      rw [hfilter] at hle
      simp at hle
    | nil =>
      -- existing access row: both names must have pre-existed
      have ha0mem : a0 ∈ db.access := by
        have : a0 ∈ db2.access.filter (accessKey sub.id top.id) := by
          rw [hfilter]
          exact List.mem_singleton_self a0
        rw [← hacc2]
        exact (List.mem_filter.mp this).1
      have ha0key : accessKey sub.id top.id a0 = true := by
        have : a0 ∈ db2.access.filter (accessKey sub.id top.id) := by
          rw [hfilter]
          exact List.mem_singleton_self a0
        exact (List.mem_filter.mp this).2
      obtain ⟨ha0s, ha0t⟩ := accessKey_eq ha0key
      have hfsub : tableFindName db.subscribers (.vstr s) = some sub := by
        rcases tableGet_ok htg1 with ⟨hf, _⟩ | ⟨_, _, _, hsubeq, _⟩
        · exact hf
        · exfalso
          obtain ⟨r, hr, hrid⟩ := hwf.accessSubs a0 ha0mem
          have hlt := hwf.subscribersWF.idsLt r hr
          rw [hrid, ha0s, hsubeq] at hlt
          exact absurd hlt (by simp)
      have hdb1eq : db1 = db := by
        rcases tableGet_ok htg1 with ⟨_, hteq⟩ | ⟨hfn, _⟩
        · rw [hdb1, hteq]
        · rw [hfn] at hfsub
          cases hfsub
      have hftop : tableFindName db.topics (.vstr t) = some top := by
        rcases tableGet_ok htg2' with ⟨hf, _⟩ | ⟨_, _, _, htopeq, _⟩
        · exact hf
        · exfalso
          obtain ⟨r, hr, hrid⟩ := hwf.accessTopics a0 ha0mem
          have hlt := hwf.topicsWF.idsLt r hr
          rw [hrid, ha0t, htopeq] at hlt
          exact absurd hlt (by simp)
      have hdb2eq : db2 = db := by
        rcases tableGet_ok htg2' with ⟨_, hteq⟩ | ⟨hfn, _⟩
        · rw [hdb2, hteq, hdb1eq]
        · rw [hfn] at hftop
          cases hftop
      have harf : accessRowFor s t db = some a0 := by
        unfold accessRowFor
        rw [hfsub, hftop]
        show List.find? (accessKey sub.id top.id) db.access = some a0
        rw [find?_eq_head_filter, ← hacc2, hfilter]
        rfl
      have hlat : ∀ now0 : Int, latest s t now0 db = .ok (a0, db2) := by
        intro now0
        rw [hmatch now0, hfilter]
      refine ⟨a0, db2, hlat now, ?_, ?_, ?_, ?_⟩
      · intro a0' ha0'
        rw [harf] at ha0'
        injection ha0' with he
        exact ⟨he, hdb2eq⟩
      · intro hnone
        rw [harf] at hnone
        cases hnone
      · intro hnone
        rw [harf] at hnone
        cases hnone
      · intro now'
        have := hlat now'
        rw [hdb2eq] at this ⊢
        exact this
  | nil =>
    -- no access row: a new one is created and committed
    have hmsgeq : db2.messages.filter (fun m => decide (m.topic_id = top.id)) = msgsOn t db := by
      rcases tableGet_ok htg2' with ⟨hf, _⟩ | ⟨hfn, _, _, htopeq, _⟩
      · unfold msgsOn
        rw [hf, hmsg2]
      · unfold msgsOn
        rw [hfn, hmsg2]
        apply List.filter_eq_nil_iff.mpr
        intro m hm
        obtain ⟨r, hr, hrid⟩ := hwf.msgTopics m hm
        have hlt := hwf.topicsWF.idsLt r hr
        simp only [decide_eq_true_eq]
        intro he
        rw [htopeq] at he
        rw [hrid, he] at hlt
        exact absurd hlt (by simp)
    have haccnone : accessRowFor s t db = none := by
      unfold accessRowFor
      rcases tableGet_ok htg1 with ⟨hf, _⟩ | ⟨hfn, _⟩
      · rw [hf]
        rcases tableGet_ok htg2' with ⟨hf2, _⟩ | ⟨hfn2, _⟩
        · rw [hf2]
          show List.find? (accessKey sub.id top.id) db.access = none
          rw [find?_eq_head_filter, ← hacc2, hfilter]
          rfl
        · rw [hfn2]
      · rw [hfn]
    set tvalM : Int :=
      (match ((msgsOn t db).insertionSort msgTimeLe).head? with
       | none => now
       | some m => m.time) with htvalM
    have hcmt : commit { db2 with
        access := db2.access ++ [(⟨sub.id, top.id, tvalM⟩ : AccessRow)] } =
        .ok { db2 with access := db2.access ++ [(⟨sub.id, top.id, tvalM⟩ : AccessRow)] } := by
      unfold commit
      rw [show ({ db2 with
        access := db2.access ++ [(⟨sub.id, top.id, tvalM⟩ : AccessRow)] } : DB).failCommit
        = false from hfc2]
      simp
    have hlat : latest s t now db =
        .ok (⟨sub.id, top.id, tvalM⟩,
          { db2 with access := db2.access ++ [(⟨sub.id, top.id, tvalM⟩ : AccessRow)] }) := by
      rw [hmatch now, hfilter, hmsgeq]
      show commit { db2 with
          access := db2.access ++ [(⟨sub.id, top.id, tvalM⟩ : AccessRow)] } >>=
          (fun db3 => (Except.ok (⟨sub.id, top.id, tvalM⟩, db3) :
            Except DBErr (AccessRow × DB))) = _
      rw [hcmt, except_bind_ok]
    refine ⟨⟨sub.id, top.id, tvalM⟩,
      { db2 with access := db2.access ++ [(⟨sub.id, top.id, tvalM⟩ : AccessRow)] },
      hlat, ?_, ?_, ?_, ?_⟩
    · intro a0' ha0'
      rw [haccnone] at ha0'
      cases ha0'
    · intro _ hempty
      show tvalM = now
      rw [htvalM, hempty]
      rfl
    · intro _ hne
      cases hh : ((msgsOn t db).insertionSort msgTimeLe).head? with
      | none =>
        exfalso
        apply insertionSort_ne_nil hne
        exact List.head?_eq_none_iff.mp hh
      | some m0 =>
        obtain ⟨hm0mem, hm0min⟩ := insertionSort_head_min hh
        refine ⟨m0, hm0mem, ?_, hm0min⟩
        show tvalM = m0.time
        rw [htvalM, hh]
    · intro now'
      have hs' : internSubscriber
          { db2 with access := db2.access ++ [(⟨sub.id, top.id, tvalM⟩ : AccessRow)] }
          (.vstr s) =
          .ok (sub, { db2 with
            access := db2.access ++ [(⟨sub.id, top.id, tvalM⟩ : AccessRow)] }) :=
        internSubscriber_found hfindsub2
      have ht' : internTopic
          { db2 with access := db2.access ++ [(⟨sub.id, top.id, tvalM⟩ : AccessRow)] }
          (.vstr t) =
          .ok (top, { db2 with
            access := db2.access ++ [(⟨sub.id, top.id, tvalM⟩ : AccessRow)] }) :=
        internTopic_found hfindtop2
      have hfilterN : (db2.access ++ [(⟨sub.id, top.id, tvalM⟩ : AccessRow)]).filter
          (accessKey sub.id top.id) = [(⟨sub.id, top.id, tvalM⟩ : AccessRow)] := by
        rw [List.filter_append, hfilter]
        simp [accessKey]
      have hmatchN : latest s t now'
          { db2 with access := db2.access ++ [(⟨sub.id, top.id, tvalM⟩ : AccessRow)] } =
          (match (db2.access ++ [(⟨sub.id, top.id, tvalM⟩ : AccessRow)]).filter
            (accessKey sub.id top.id) with
          | [a] => Except.ok (a, { db2 with
              access := db2.access ++ [(⟨sub.id, top.id, tvalM⟩ : AccessRow)] })
          | [] =>
            let onTopic := db2.messages.filter (fun m => decide (m.topic_id = top.id))
            let tval : Int :=
              match (onTopic.insertionSort msgTimeLe).head? with
              | none => now'
              | some m => m.time
            let a : AccessRow := ⟨sub.id, top.id, tval⟩
            commit { db2 with
              access := (db2.access ++ [(⟨sub.id, top.id, tvalM⟩ : AccessRow)]) ++ [a] } >>=
              fun db3 => .ok (a, db3)
          | _ => .error .multiple) := by
        unfold latest
        rw [hs']
        simp only [bind, Except.bind]
        rw [ht']
      rw [hmatchN, hfilterN]

/-- Witness for C5 on the empty database: a fresh cursor is created at the
current time and a second call returns it unchanged. -/
theorem C5_latest_spec_witness :
    ∃ a db', latest "sub1" "demo" 9 emptyDB = .ok (a, db') ∧
      (∀ a0, accessRowFor "sub1" "demo" emptyDB = some a0 → a = a0 ∧ db' = emptyDB) ∧
      (accessRowFor "sub1" "demo" emptyDB = none → msgsOn "demo" emptyDB = [] →
        a.time = 9) ∧
      (accessRowFor "sub1" "demo" emptyDB = none → msgsOn "demo" emptyDB ≠ [] →
        ∃ m0 ∈ msgsOn "demo" emptyDB, a.time = m0.time ∧
          ∀ x ∈ msgsOn "demo" emptyDB, m0.time ≤ x.time) ∧
      (∀ now', latest "sub1" "demo" now' db' = .ok (a, db')) :=
  C5_latest_spec rfl emptyDB_wf

/-- C3: `fetch(t, τ, n)` returns at most `n` messages, each strictly newer
than `τ` and on topic `t`, in ascending time order, with the topic, level
and host names eagerly resolved into the returned value objects; every
returned message is the resolution of an actual stored message row. -/
theorem C3_fetch_spec {t : String} {τ : Int} {n : Nat} {db : DB}
    (hfc : db.failCommit = false) (hwf : DBWF db)
    {R : List Message} {db' : DB} (hfetch : fetch t τ n db = .ok (R, db')) :
    R.length ≤ n ∧
    List.Sorted (fun a b : Int => a ≤ b) (R.map (fun r => r.time.timeOf)) ∧
    ∀ r ∈ R, r.topic = .vstr t ∧
      (∃ v, r.time = .vtime v ∧ τ < v) ∧
      (∃ lname, r.level = .vstr lname) ∧
      (∃ hname, r.host = .vstr hname) ∧
      ∃ row ∈ db.messages, r = ⟨.vint row.id, .vtime row.time,
        resolveName db'.topics row.topic_id, resolveName db'.levels row.level_id,
        resolveName db'.hosts row.host_id, row.text⟩ := by
  obtain ⟨top, db1, h1⟩ := internTopic_str_ok hfc t
  obtain ⟨htg1, hdb1⟩ := internTopic_ok h1
  have hmsg1 : db1.messages = db.messages := by rw [hdb1]
  have hlev1 : db1.levels = db.levels := by rw [hdb1]
  have hhost1 : db1.hosts = db.hosts := by rw [hdb1]
  simp only [fetch, h1, except_bind_ok] at hfetch
  injection hfetch with h'
  injection h' with hR hdb'
  subst hdb'
  subst hR
  set p : MessageRow → Bool :=
    fun m => decide (τ < m.time) && decide (m.topic_id = top.id) with hp
  set rows : List MessageRow :=
    ((db1.messages.filter p).insertionSort msgTimeLe).take n with hrows
  have hsorted : List.Pairwise msgTimeLe rows := by
    rw [hrows]
    exact (List.sorted_insertionSort msgTimeLe _).sublist (List.take_sublist _ _)
  have hrowmem : ∀ row ∈ rows, row ∈ db.messages ∧ τ < row.time ∧ row.topic_id = top.id := by
    intro row hrow
    rw [hrows] at hrow
    have h2 := List.mem_of_mem_take hrow
    have h3 := (List.mem_insertionSort _).mp h2
    obtain ⟨hmem, hprop⟩ := List.mem_filter.mp h3
    rw [hp] at hprop
    simp only [Bool.and_eq_true, decide_eq_true_eq] at hprop
    rw [hmsg1] at hmem
    exact ⟨hmem, hprop.1, hprop.2⟩
  have hwft : TableWF db1.topics := tableGet_wf hwf.topicsWF htg1 ⟨t, rfl⟩
  have hrestop : resolveName db1.topics top.id = .vstr t := by
    have := resolveName_mem hwft.nodupIds (tableGet_mem htg1)
    rw [this, tableGet_name htg1]
  refine ⟨?_, ?_, ?_⟩
  · rw [List.length_map, hrows]
    exact List.length_take_le _ _
  · rw [List.map_map]
    have : (fun r : Message => r.time.timeOf) ∘
        (fun r : MessageRow => (⟨.vint r.id, .vtime r.time, resolveName db1.topics r.topic_id,
          resolveName db1.levels r.level_id, resolveName db1.hosts r.host_id,
          r.text⟩ : Message)) = fun r : MessageRow => r.time := rfl
    rw [this]
    exact (List.pairwise_map).mpr hsorted
  · intro r hr
    obtain ⟨row, hrowm, hrowe⟩ := List.mem_map.mp hr
    obtain ⟨hmem, hlt, htid⟩ := hrowmem row hrowm
    subst hrowe
    refine ⟨?_, ⟨row.time, rfl, hlt⟩, ?_, ?_, row, hmem, rfl⟩
    · show resolveName db1.topics row.topic_id = .vstr t
      rw [htid]
      exact hrestop
    · obtain ⟨lr, hlr, hlrid⟩ := hwf.msgLevels row hmem
      obtain ⟨lname, hlname⟩ := hwf.levelsWF.namesStr lr hlr
      refine ⟨lname, ?_⟩
      show resolveName db1.levels row.level_id = .vstr lname
      rw [hlev1, ← hlrid, resolveName_mem hwf.levelsWF.nodupIds hlr, hlname]
    · obtain ⟨hr2, hhr, hhrid⟩ := hwf.msgHosts row hmem
      obtain ⟨hname, hhname⟩ := hwf.hostsWF.namesStr hr2 hhr
      refine ⟨hname, ?_⟩
      show resolveName db1.hosts row.host_id = .vstr hname
      rw [hhost1, ← hhrid, resolveName_mem hwf.hostsWF.nodupIds hhr, hhname]

/-- Witness for C3 on a database holding one matching message. -/
theorem C3_fetch_spec_witness :
    ∃ R db',
      fetch "demo" 0 5
        ⟨⟨[⟨1, Val.vstr "INFO"⟩], 2⟩, ⟨[⟨1, Val.vstr "demo"⟩], 2⟩,
          ⟨[⟨1, Val.vstr "hh"⟩], 2⟩, emptyTable,
          [⟨1, 3, 1, 1, 1, Val.vstr "hello"⟩], [], 2, false⟩ = .ok (R, db') ∧
      (R.length ≤ 5 ∧
       List.Sorted (fun a b : Int => a ≤ b) (R.map (fun r => r.time.timeOf)) ∧
       ∀ r ∈ R, r.topic = .vstr "demo" ∧
         (∃ v, r.time = .vtime v ∧ 0 < v) ∧
         (∃ lname, r.level = .vstr lname) ∧
         (∃ hname, r.host = .vstr hname) ∧
         ∃ row ∈ (⟨⟨[⟨1, Val.vstr "INFO"⟩], 2⟩, ⟨[⟨1, Val.vstr "demo"⟩], 2⟩,
            ⟨[⟨1, Val.vstr "hh"⟩], 2⟩, emptyTable,
            [⟨1, 3, 1, 1, 1, Val.vstr "hello"⟩], [], 2, false⟩ : DB).messages,
           r = ⟨.vint row.id, .vtime row.time,
             resolveName db'.topics row.topic_id, resolveName db'.levels row.level_id,
             resolveName db'.hosts row.host_id, row.text⟩) :=
  ⟨_, _, rfl, C3_fetch_spec rfl
    ⟨⟨by decide, by decide, by decide,
      by intro r hr; simp only [List.mem_singleton] at hr; subst hr; exact ⟨"demo", rfl⟩⟩,
     ⟨by decide, by decide, by decide,
      by intro r hr; simp only [List.mem_singleton] at hr; subst hr; exact ⟨"INFO", rfl⟩⟩,
     ⟨by decide, by decide, by decide,
      by intro r hr; simp only [List.mem_singleton] at hr; subst hr; exact ⟨"hh", rfl⟩⟩,
     emptyTable_wf,
     by decide, by decide, by decide,
     fun a ha => absurd ha (List.not_mem_nil a),
     fun a ha => absurd ha (List.not_mem_nil a),
     by decide⟩
    rfl⟩

/-! Helper lemmas for the memoized interner. -/

theorem cacheFind_some_mem {c : KeyCache} {k : String × Option Nat} {r : NameRow}
    (h : cacheFind c k = some r) :
    ∃ e, e ∈ c.entries ∧ e.1 = k ∧ e.2 = r := by
  unfold cacheFind at h
  cases hf : c.entries.find? (fun e => decide (e.1 = k)) with
  | none => rw [hf] at h; cases h
  | some e =>
    rw [hf] at h
    injection h with h'
    have hmem := List.mem_of_find?_eq_some hf
    have hk := List.find?_some hf
    simp only [decide_eq_true_eq] at hk
    exact ⟨e, hmem, hk, h'⟩

theorem get_level_head {fc : Bool} {c c' : KeyCache} {t t' : NameTable}
    {n : String} {s : Option Nat} {r : NameRow}
    (h : get_level fc c t n s = .ok (r, c', t')) :
    c'.entries.head? = some ((n, s), r) := by
  unfold get_level at h
  cases hcf : cacheFind c (n, s) with
  | some rc =>
    rw [hcf] at h
    injection h with h'
    injection h' with h1 h2
    injection h2 with h3 h4
    subst h1
    rw [← h3]
    rfl
  | none =>
    rw [hcf] at h
    cases htg : tableGet fc t (.vstr n) with
    | error e => rw [htg] at h; cases h
    | ok p =>
      obtain ⟨r0, t0⟩ := p
      rw [htg] at h
      injection h with h'
      injection h' with h1 h2
      injection h2 with h3 h4
      subst h1
      rw [← h3]
      rfl

theorem cacheFind_head {c : KeyCache} {k : String × Option Nat} {r : NameRow}
    (h : c.entries.head? = some (k, r)) : cacheFind c k = some r := by
  cases he : c.entries with
  | nil => rw [he] at h; cases h
  | cons e rest =>
    rw [he] at h
    injection h with h'
    subst h'
    unfold cacheFind
    rw [he]
    simp [List.find?]

theorem get_level_cacheOK {fc : Bool} {c c' : KeyCache} {t t' : NameTable}
    {n : String} {s : Option Nat} {r : NameRow}
    (hok : CacheOK c t) (h : get_level fc c t n s = .ok (r, c', t')) :
    CacheOK c' t' := by
  unfold get_level at h
  cases hcf : cacheFind c (n, s) with
  | some rc =>
    rw [hcf] at h
    injection h with h'
    injection h' with h1 h2
    injection h2 with h3 h4
    subst h1
    subst h4
    intro e he
    rw [← h3] at he
    simp only at he
    rcases List.mem_cons.mp he with he | he
    · subst he
      obtain ⟨e0, he0, hek, her⟩ := cacheFind_some_mem hcf
      have := hok e0 he0
      rw [hek, her] at this
      exact this
    · exact hok e (List.mem_of_mem_filter he)
  | none =>
    rw [hcf] at h
    cases htg : tableGet fc t (.vstr n) with
    | error e => rw [htg] at h; cases h
    | ok p =>
      obtain ⟨r0, t0⟩ := p
      rw [htg] at h
      injection h with h'
      injection h' with h1 h2
      injection h2 with h3 h4
      subst h1
      subst h4
      intro e he
      rw [← h3] at he
      simp only at he
      have he' := List.mem_of_mem_take he
      rcases List.mem_cons.mp he' with he2 | he2
      · subst he2
        exact tableGet_find htg
      · exact tableGet_stable htg (hok e he2)

theorem get_level_find {fc : Bool} {c c' : KeyCache} {t t' : NameTable}
    {n : String} {s : Option Nat} {r : NameRow}
    (hok : CacheOK c t) (h : get_level fc c t n s = .ok (r, c', t')) :
    tableFindName t' (.vstr n) = some r := by
  unfold get_level at h
  cases hcf : cacheFind c (n, s) with
  | some rc =>
    rw [hcf] at h
    injection h with h'
    injection h' with h1 h2
    injection h2 with h3 h4
    subst h1
    subst h4
    obtain ⟨e0, he0, hek, her⟩ := cacheFind_some_mem hcf
    have := hok e0 he0
    rw [hek, her] at this
    exact this
  | none =>
    rw [hcf] at h
    cases htg : tableGet fc t (.vstr n) with
    | error e => rw [htg] at h; cases h
    | ok p =>
      obtain ⟨r0, t0⟩ := p
      rw [htg] at h
      injection h with h'
      injection h' with h1 h2
      injection h2 with h3 h4
      subst h1
      subst h4
      exact tableGet_find htg

/-- C9: for one `(id, name)` table (shown on `get_level`, whose code is
identical to the other three cached getters), two calls to intern the same
name within one process return rows with identical id, regardless of order,
sessions, or which call created the row; and an immediately repeated call
with the same arguments is answered from the `lru_cache` without touching
the database (the table state is returned unchanged). -/
theorem C9_intern_memoized {c0 c1 c2 : KeyCache} {t0 t1 t2 : NameTable}
    {n : String} {s1 s2 : Option Nat} {r1 r2 : NameRow}
    (hok : CacheOK c0 t0)
    (h1 : get_level false c0 t0 n s1 = .ok (r1, c1, t1))
    (h2 : get_level false c1 t1 n s2 = .ok (r2, c2, t2)) :
    r2.id = r1.id ∧ (s2 = s1 → r2 = r1 ∧ t2 = t1) := by
  have hok1 : CacheOK c1 t1 := get_level_cacheOK hok h1
  have hfind1 : tableFindName t1 (.vstr n) = some r1 := get_level_find hok h1
  constructor
  · unfold get_level at h2
    cases hcf : cacheFind c1 (n, s2) with
    | some rc =>
      rw [hcf] at h2
      injection h2 with h'
      injection h' with ha hb
      subst ha
      obtain ⟨e0, he0, hek, her⟩ := cacheFind_some_mem hcf
      have := hok1 e0 he0
      rw [hek, her] at this
      rw [this] at hfind1
      injection hfind1 with he
      rw [he]
    | none =>
      rw [hcf, tableGet_found hfind1] at h2
      injection h2 with h'
      injection h' with ha hb
      rw [← ha]
  · intro hss
    subst hss
    have hhead := get_level_head h1
    have hcf : cacheFind c1 (n, s2) = some r1 := cacheFind_head hhead
    unfold get_level at h2
    rw [hcf] at h2
    injection h2 with h'
    injection h' with ha hb
    injection hb with hc hd
    exact ⟨ha.symm, hd.symm⟩

/-- Witness for C9 at concrete consecutive calls from an empty cache. -/
theorem C9_intern_memoized_witness :
    (⟨1, Val.vstr "INFO"⟩ : NameRow).id = (⟨1, Val.vstr "INFO"⟩ : NameRow).id ∧
    ((none : Option Nat) = none →
      (⟨1, Val.vstr "INFO"⟩ : NameRow) = ⟨1, Val.vstr "INFO"⟩ ∧
      (⟨[⟨1, Val.vstr "INFO"⟩], 2⟩ : NameTable) = ⟨[⟨1, Val.vstr "INFO"⟩], 2⟩) :=
  @C9_intern_memoized emptyCache
    ⟨[(("INFO", none), ⟨1, Val.vstr "INFO"⟩)]⟩ ⟨[(("INFO", none), ⟨1, Val.vstr "INFO"⟩)]⟩
    emptyTable ⟨[⟨1, Val.vstr "INFO"⟩], 2⟩ ⟨[⟨1, Val.vstr "INFO"⟩], 2⟩
    "INFO" none none ⟨1, Val.vstr "INFO"⟩ ⟨1, Val.vstr "INFO"⟩
    (fun e he => absurd he (List.not_mem_nil e)) rfl rfl
